import Mathlib

/-!
Verification development for the weatherAnalytics repository.

The definitions below are a shallow embedding of the core of the
repository: the DWD import pipeline (src/src/importers/dwd/) with its
chunked buffering, batch upsert accounting, lock-retry loop and progress
reporting, the background job trace (src/src/jobs/manager.py together
with src/src/importers/dwd/importer.py), and the report engine
(src/src/reports/). Python floats are modelled by rationals; the SQLite
store is modelled by explicit lists standing for table rows, and each
SQL statement the code issues is mirrored by a pure function over those
lists plus a query event recorded in a trace. The transcendental
haversine distance and the cosine used for the bounding box cannot be
carried out exactly over the rationals, so they enter the model as
explicit function and value parameters (d and cosAbsLat below); every
statement proved here is quantified over them, i.e. holds for the
actual haversine in particular.
-/

set_option allowUnsafeReducibility true

attribute [semireducible] Rat.mul Rat.add Rat.sub Rat.inv

namespace WeatherAnalytics

/-- Chunk size used for buffered batches (src/src/importers/dwd/constants.py). -/
def CHUNK_SIZE : Nat := 500

/-- Maximum number of retries after a SQLite lock error (constants.py). -/
def SQLITE_LOCK_RETRIES : Nat := 5

/-- Base sleep, in seconds, between lock retries (constants.py). -/
def SQLITE_LOCK_SLEEP : ℚ := 1

/-- Suffix selecting historical daily archives in the listing (constants.py). -/
def ARCHIVE_SUFFIX : String := "_hist.zip"

/-- Named error codes raised as ReportError(code) in src/src/reports/. -/
inductive ReportErrorCode where
  | invalid_dates
  | invalid_range
  | out_of_bounds
  | invalid_granularity
  | no_data
  | no_stations
deriving DecidableEq

/-- Tags for the SQL statements the report engine executes, recorded in
order of execution so that short-circuiting claims can be stated. -/
inductive QueryEvent where
  | coverageQuery
  | stationBoxQuery
  | stationNearestQuery
  | periodAggregateQuery
  | breakdownQuery
deriving DecidableEq

/-- Row of the stations table as selected by src/src/reports/geo.py:
station_id, station_name, state, latitude, longitude. Coordinates are
nullable in the schema. -/
structure StationRow where
  station_id : Nat
  station_name : String
  state : String
  latitude : Option ℚ
  longitude : Option ℚ
deriving DecidableEq

/-- Entry of the payload list built by _stations_within_radius
(geo.py lines 60-69). -/
structure StationPayloadRow where
  station_id : Nat
  name : String
  state : String
  latitude : ℚ
  longitude : ℚ
  distance_km : ℚ
deriving DecidableEq

/-- Two-decimal rounding used for distances and aggregate metrics
(round(x, 2)); the tie-breaking convention of the Python round builtin
is immaterial to every claim below. -/
def round2 (q : ℚ) : ℚ := (round (q * 100) : ℤ) / 100

/-- Stations with non-null latitude and longitude, paired with their
coordinates; mirrors the WHERE latitude IS NOT NULL AND longitude IS
NOT NULL filter of both queries in geo.py. -/
def geocodedRows (stations : List StationRow) : List (StationRow × ℚ × ℚ) :=
  stations.filterMap fun s =>
    match s.latitude, s.longitude with
    | some la, some lo => some (s, la, lo)
    | _, _ => none

/-- Squared-coordinate proxy distance used by the nearest-station
fallback query: (latitude - lat)^2 + (longitude - lon)^2. -/
def proxyDist (lat lon la lo : ℚ) : ℚ :=
  (la - lat) * (la - lat) + (lo - lon) * (lo - lon)

/-- Result of the ORDER BY proxy LIMIT 1 fallback query: the first row
attaining the minimal proxy distance (SQL leaves the tie order
unspecified; the model keeps the earliest row, and no claim depends on
the tie order). -/
def minByProxy (lat lon : ℚ) : List (StationRow × ℚ × ℚ) → Option (StationRow × ℚ × ℚ)
  | [] => none
  | t :: ts =>
    match minByProxy lat lon ts with
    | none => some t
    | some u =>
      if proxyDist lat lon u.2.1 u.2.2 < proxyDist lat lon t.2.1 t.2.2 then some u else some t

/-- Stable insertion of a (row, distance) pair into a list sorted by
ascending distance; models the stable Python list sort keyed on
item[1] in geo.py line 59. -/
def orderedInsertByDist (x : (StationRow × ℚ × ℚ) × ℚ) :
    List ((StationRow × ℚ × ℚ) × ℚ) → List ((StationRow × ℚ × ℚ) × ℚ)
  | [] => [x]
  | y :: ys => if x.2 ≤ y.2 then x :: y :: ys else y :: orderedInsertByDist x ys

/-- Sort by ascending distance (stable, like the Python sort). -/
def sortByDist : List ((StationRow × ℚ × ℚ) × ℚ) → List ((StationRow × ℚ × ℚ) × ℚ)
  | [] => []
  | x :: xs => orderedInsertByDist x (sortByDist xs)

/-- Effective search radius: radius_km = max(0.5, float(radius_km)),
geo.py line 22. -/
def effectiveRadius (radius_km : ℚ) : ℚ := max (1/2) radius_km

/-- Longitude compensation step: 111.0 * max(0.1, abs(cos(radians(lat)))),
geo.py line 24, with the cosine magnitude supplied as cosAbsLat. -/
def lonStepOf (cosAbsLat : ℚ) : ℚ := 111 * max (1/10) cosAbsLat

/-- Longitude half-width of the bounding box, geo.py line 25, including
the (vacuous, since lon_step is at least 11.1) truthiness guard. -/
def lonDeltaOf (cosAbsLat r : ℚ) : ℚ :=
  if lonStepOf cosAbsLat = 0 then r / 111 else r / lonStepOf cosAbsLat

/-- Rows returned by the bounding-box prefilter query, geo.py
lines 27-37. -/
def boxRows (cosAbsLat : ℚ) (stations : List StationRow) (lat lon r : ℚ) :
    List (StationRow × ℚ × ℚ) :=
  (geocodedRows stations).filter fun t =>
    decide (lat - r / 111 ≤ t.2.1) && decide (t.2.1 ≤ lat + r / 111) &&
      decide (lon - lonDeltaOf cosAbsLat r ≤ t.2.2) &&
        decide (t.2.2 ≤ lon + lonDeltaOf cosAbsLat r)

/-- Box candidates whose exact distance is within the effective radius,
paired with that distance; geo.py lines 39-43. -/
def radiusMatches (d : ℚ → ℚ → ℚ) (cosAbsLat : ℚ) (stations : List StationRow)
    (lat lon r : ℚ) : List ((StationRow × ℚ × ℚ) × ℚ) :=
  (boxRows cosAbsLat stations lat lon r).filterMap fun t =>
    if d t.2.1 t.2.2 ≤ r then some (t, d t.2.1 t.2.2) else none

/-- Fallback for an empty match list: the globally proxy-nearest
geocoded station with its exact distance; geo.py lines 45-57. -/
def fallbackMatches (d : ℚ → ℚ → ℚ) (stations : List StationRow) (lat lon : ℚ) :
    List ((StationRow × ℚ × ℚ) × ℚ) :=
  match minByProxy lat lon (geocodedRows stations) with
  | some t => [(t, d t.2.1 t.2.2)]
  | none => []

/-- The match list after the fallback step. -/
def geoMatches (d : ℚ → ℚ → ℚ) (cosAbsLat : ℚ) (stations : List StationRow)
    (lat lon r : ℚ) : List ((StationRow × ℚ × ℚ) × ℚ) :=
  if (radiusMatches d cosAbsLat stations lat lon r).isEmpty then
    fallbackMatches d stations lat lon
  else radiusMatches d cosAbsLat stations lat lon r

/-- Queries executed by _stations_within_radius: the box query always,
the nearest-station query only when no box candidate was in radius. -/
def geoEvents (d : ℚ → ℚ → ℚ) (cosAbsLat : ℚ) (stations : List StationRow)
    (lat lon r : ℚ) : List QueryEvent :=
  if (radiusMatches d cosAbsLat stations lat lon r).isEmpty then
    [QueryEvent.stationBoxQuery, QueryEvent.stationNearestQuery]
  else [QueryEvent.stationBoxQuery]

/-- Payload entry built from a match, geo.py lines 61-69. -/
def payloadOf (td : (StationRow × ℚ × ℚ) × ℚ) : StationPayloadRow :=
  ⟨td.1.1.station_id, td.1.1.station_name, td.1.1.state, td.1.2.1, td.1.2.2, round2 td.2⟩

/-- Payload of _stations_within_radius once the effective radius r is
fixed: sort matches by distance, truncate to limit, build the payload
rows (geo.py lines 59-70). -/
def payloadWithR (d : ℚ → ℚ → ℚ) (cosAbsLat : ℚ) (stations : List StationRow)
    (lat lon r : ℚ) (limit : Nat) : List StationPayloadRow :=
  ((sortByDist (geoMatches d cosAbsLat stations lat lon r)).take limit).map payloadOf

/-- Shallow embedding of _stations_within_radius (geo.py lines 21-70).
The parameter d stands for haversine_km lat lon applied to a station
latitude and longitude, and cosAbsLat for abs(cos(radians(lat))); both
are transcendental in the source and are therefore parameters of the
model. Returns the payload list and the trace of queries executed. -/
def stationsWithinRadiusAux (d : ℚ → ℚ → ℚ) (cosAbsLat : ℚ) (stations : List StationRow)
    (lat lon radius_km : ℚ) (limit : Nat) : List StationPayloadRow × List QueryEvent :=
  (payloadWithR d cosAbsLat stations lat lon (effectiveRadius radius_km) limit,
    geoEvents d cosAbsLat stations lat lon (effectiveRadius radius_km))

/-- Shallow embedding of the public stations_within_radius wrapper
(geo.py lines 73-78): raises ReportError no_stations exactly when the
payload list is empty. -/
def stationsWithinRadiusRun (d : ℚ → ℚ → ℚ) (cosAbsLat : ℚ) (stations : List StationRow)
    (lat lon radius_km : ℚ) (limit : Nat) :
    Except ReportErrorCode (List StationPayloadRow) × List QueryEvent :=
  (if (payloadWithR d cosAbsLat stations lat lon (effectiveRadius radius_km) limit).isEmpty then
      Except.error ReportErrorCode.no_stations
    else Except.ok (payloadWithR d cosAbsLat stations lat lon (effectiveRadius radius_km) limit),
    geoEvents d cosAbsLat stations lat lon (effectiveRadius radius_km))

theorem minByProxy_eq_none_iff (lat lon : ℚ) (l : List (StationRow × ℚ × ℚ)) :
    minByProxy lat lon l = none ↔ l = [] := by
  induction l with
  | nil => simp [minByProxy]
  | cons t ts ih =>
    simp only [minByProxy]
    cases h : minByProxy lat lon ts with
    | none => simp
    | some u =>
      constructor
      · intro hc
        by_cases hlt : proxyDist lat lon u.2.1 u.2.2 < proxyDist lat lon t.2.1 t.2.2 <;>
          simp [hlt] at hc
      · intro hc
        exact absurd hc (by simp)

theorem minByProxy_spec (lat lon : ℚ) (l : List (StationRow × ℚ × ℚ))
    (t : StationRow × ℚ × ℚ) (h : minByProxy lat lon l = some t) :
    t ∈ l ∧ ∀ u ∈ l, proxyDist lat lon t.2.1 t.2.2 ≤ proxyDist lat lon u.2.1 u.2.2 := by
  induction l generalizing t with
  | nil => simp [minByProxy] at h
  | cons a ts ih =>
    simp only [minByProxy] at h
    cases hm : minByProxy lat lon ts with
    | none =>
      rw [hm] at h
      have hts : ts = [] := (minByProxy_eq_none_iff lat lon ts).mp hm
      cases h
      subst hts
      exact ⟨List.mem_cons_self a [], by simp⟩
    | some u =>
      rw [hm] at h
      replace h : (if proxyDist lat lon u.2.1 u.2.2 < proxyDist lat lon a.2.1 a.2.2 then some u
          else some a) = some t := h
      obtain ⟨hu_mem, hu_min⟩ := ih u hm
      by_cases hlt : proxyDist lat lon u.2.1 u.2.2 < proxyDist lat lon a.2.1 a.2.2
      · rw [if_pos hlt] at h
        cases h
        refine ⟨List.mem_cons_of_mem a hu_mem, ?_⟩
        intro v hv
        rcases List.mem_cons.mp hv with hva | hvt
        · subst hva; exact le_of_lt hlt
        · exact hu_min v hvt
      · rw [if_neg hlt] at h
        cases h
        refine ⟨List.mem_cons_self _ _, ?_⟩
        intro v hv
        rcases List.mem_cons.mp hv with hva | hvt
        · subst hva; exact le_refl _
        · exact le_trans (not_lt.mp hlt) (hu_min v hvt)

theorem sortByDist_eq_nil_iff (l : List ((StationRow × ℚ × ℚ) × ℚ)) :
    sortByDist l = [] ↔ l = [] := by
  cases l with
  | nil => simp [sortByDist]
  | cons x xs =>
    simp only [sortByDist]
    constructor
    · intro h
      cases hs : sortByDist xs with
      | nil => rw [hs] at h; simp [orderedInsertByDist] at h
      | cons y ys =>
        rw [hs] at h
        by_cases hle : x.2 ≤ y.2 <;> simp [orderedInsertByDist, hle] at h
    · intro h; exact absurd h (by simp)

theorem boxRows_subset (cosAbsLat : ℚ) (stations : List StationRow) (lat lon r : ℚ) :
    ∀ t ∈ boxRows cosAbsLat stations lat lon r, t ∈ geocodedRows stations := by
  intro t ht
  exact (List.mem_filter.mp ht).1

theorem radiusMatches_eq_nil (d : ℚ → ℚ → ℚ) (cosAbsLat : ℚ) (stations : List StationRow)
    (lat lon r : ℚ) (h : ∀ t ∈ geocodedRows stations, r < d t.2.1 t.2.2) :
    radiusMatches d cosAbsLat stations lat lon r = [] := by
  apply List.filterMap_eq_nil_iff.mpr
  intro t ht
  have := h t (boxRows_subset cosAbsLat stations lat lon r t ht)
  simp [not_le.mpr this]

theorem radiusMatches_geocoded (d : ℚ → ℚ → ℚ) (cosAbsLat : ℚ) (stations : List StationRow)
    (lat lon r : ℚ) (td : (StationRow × ℚ × ℚ) × ℚ)
    (h : td ∈ radiusMatches d cosAbsLat stations lat lon r) :
    td.1 ∈ geocodedRows stations := by
  obtain ⟨t, ht, heq⟩ := List.mem_filterMap.mp h
  by_cases hle : d t.2.1 t.2.2 ≤ r
  · rw [if_pos hle] at heq
    cases heq
    exact boxRows_subset cosAbsLat stations lat lon r t ht
  · rw [if_neg hle] at heq
    cases heq

theorem geoMatches_eq_nil_iff (d : ℚ → ℚ → ℚ) (cosAbsLat : ℚ) (stations : List StationRow)
    (lat lon r : ℚ) :
    geoMatches d cosAbsLat stations lat lon r = [] ↔ geocodedRows stations = [] := by
  unfold geoMatches
  by_cases hempty : (radiusMatches d cosAbsLat stations lat lon r).isEmpty
  · rw [if_pos hempty]
    unfold fallbackMatches
    cases hm : minByProxy lat lon (geocodedRows stations) with
    | none => simpa using (minByProxy_eq_none_iff lat lon (geocodedRows stations)).mp hm
    | some t =>
      simp only []
      constructor
      · intro h; exact absurd h (by simp)
      · intro h
        rw [h] at hm
        simp [minByProxy] at hm
  · rw [if_neg hempty]
    constructor
    · intro h
      rw [h] at hempty
      simp [List.isEmpty] at hempty
    · intro h
      cases hne : radiusMatches d cosAbsLat stations lat lon r with
      | nil => rfl
      | cons td tds =>
        have : td.1 ∈ geocodedRows stations :=
          radiusMatches_geocoded d cosAbsLat stations lat lon r td (by rw [hne]; simp)
        rw [h] at this
        simp at this

/-- C2 (amended): if no geocoded station lies within the effective
radius max(0.5, radius) and the result limit is positive, the selector
returns exactly one station, a geocoded station minimizing the
squared-coordinate proxy distance, carried with its (rounded) exact
distance; and, with a positive limit, the wrapper raises no_stations if
and only if the store has no geocoded station at all. -/
theorem stations_within_radius_nearest_fallback (d : ℚ → ℚ → ℚ) (cosAbsLat : ℚ)
    (lat lon radius : ℚ) (stations : List StationRow) (limit : Nat)
    (hlimit : 1 ≤ limit) :
    ((∀ t ∈ geocodedRows stations, effectiveRadius radius < d t.2.1 t.2.2) →
      geocodedRows stations ≠ [] →
      ∃ t, t ∈ geocodedRows stations ∧
        (stationsWithinRadiusRun d cosAbsLat stations lat lon radius limit).1 =
          Except.ok [payloadOf (t, d t.2.1 t.2.2)] ∧
        ∀ u ∈ geocodedRows stations,
          proxyDist lat lon t.2.1 t.2.2 ≤ proxyDist lat lon u.2.1 u.2.2) ∧
    ((stationsWithinRadiusRun d cosAbsLat stations lat lon radius limit).1 =
        Except.error ReportErrorCode.no_stations ↔ geocodedRows stations = []) := by
  constructor
  · intro hno hne
    have hrm : radiusMatches d cosAbsLat stations lat lon (effectiveRadius radius) = [] :=
      radiusMatches_eq_nil d cosAbsLat stations lat lon (effectiveRadius radius) hno
    cases hm : minByProxy lat lon (geocodedRows stations) with
    | none => exact absurd ((minByProxy_eq_none_iff lat lon (geocodedRows stations)).mp hm) hne
    | some t =>
      obtain ⟨htmem, htmin⟩ := minByProxy_spec lat lon (geocodedRows stations) t hm
      refine ⟨t, htmem, ?_, htmin⟩
      have hmatches : geoMatches d cosAbsLat stations lat lon (effectiveRadius radius) =
          [(t, d t.2.1 t.2.2)] := by
        unfold geoMatches
        rw [hrm]
        simp only [List.isEmpty_nil, if_pos]
        unfold fallbackMatches
        rw [hm]
      obtain ⟨m, hm2⟩ : ∃ m, limit = m + 1 := ⟨limit - 1, by omega⟩
      have hpayload : payloadWithR d cosAbsLat stations lat lon (effectiveRadius radius) limit =
          [payloadOf (t, d t.2.1 t.2.2)] := by
        unfold payloadWithR
        rw [hmatches, hm2]
        simp [sortByDist, orderedInsertByDist]
      unfold stationsWithinRadiusRun
      rw [hpayload]
      simp
  · unfold stationsWithinRadiusRun
    by_cases hnil : geoMatches d cosAbsLat stations lat lon (effectiveRadius radius) = []
    · have hgeo := (geoMatches_eq_nil_iff d cosAbsLat stations lat lon
        (effectiveRadius radius)).mp hnil
      have hpayload : payloadWithR d cosAbsLat stations lat lon (effectiveRadius radius) limit
          = [] := by
        unfold payloadWithR
        rw [hnil]
        simp [sortByDist]
      rw [hpayload]
      simp [hgeo]
    · have hsort : sortByDist (geoMatches d cosAbsLat stations lat lon (effectiveRadius radius))
          ≠ [] := fun h => hnil ((sortByDist_eq_nil_iff _).mp h)
      have hpayload : payloadWithR d cosAbsLat stations lat lon (effectiveRadius radius) limit
          ≠ [] := by
        unfold payloadWithR
        intro h
        rw [List.map_eq_nil_iff] at h
        rcases List.take_eq_nil_iff.mp h with h1 | h1
        · omega
        · exact hsort h1
      have hgeo : geocodedRows stations ≠ [] := by
        intro h
        exact hnil ((geoMatches_eq_nil_iff d cosAbsLat stations lat lon
          (effectiveRadius radius)).mpr h)
      rw [if_neg (by simpa [List.isEmpty_eq_true] using hpayload)]
      constructor
      · intro h; exact Except.noConfusion h
      · intro h; exact absurd h hgeo

/-- Witness for the amended C2 theorem at a concrete input. -/
theorem stations_within_radius_nearest_fallback_witness :
    (1 ≤ 12) ∧
      ((stationsWithinRadiusRun (fun _ _ => 10) 1
          [⟨1, "A", "Berlin", some 1, some 2⟩] 0 0 5 12).1 =
        Except.error ReportErrorCode.no_stations ↔
          geocodedRows [⟨1, "A", "Berlin", some 1, some 2⟩] = []) :=
  ⟨by decide,
    (stations_within_radius_nearest_fallback (fun _ _ => 10) 1 0 0 5
      [⟨1, "A", "Berlin", some 1, some 2⟩] 12 (by decide)).2⟩

/-- Concrete station store for the C2 counterexample: two geocoded
stations about 333 m and 445 m from the query point, both inside the
bounding box of the floored 0.5 km radius. -/
def cexStations : List StationRow :=
  [⟨1, "A", "Berlin", some (3/1000), some 0⟩, ⟨2, "B", "Berlin", some (4/1000), some 0⟩]

/-- Concrete stand-in for haversine_km 0 0 in the C2 counterexample;
the values match the true haversine distances of the two stations to
three decimals. -/
def cexD : ℚ → ℚ → ℚ := fun la _ => if la = 3/1000 then 333/1000 else 445/1000

/-- Number of stations in a result, zero for an error. -/
def exceptPayloadLength (e : Except ReportErrorCode (List StationPayloadRow)) : Nat :=
  match e with
  | Except.ok l => l.length
  | Except.error _ => 0

/-- C2 counterexample: a radius search with requested radius 0.1 km in
which no geocoded station lies within the given radius, at least one
geocoded station exists, and yet the selector returns two stations, not
exactly one: the 0.5 km floor turns both stations into in-radius
matches. -/
theorem stations_within_radius_given_radius_counterexample :
    (∀ t ∈ geocodedRows cexStations, (1/10 : ℚ) < cexD t.2.1 t.2.2) ∧
      geocodedRows cexStations ≠ [] ∧
      exceptPayloadLength (stationsWithinRadiusRun cexD 1 cexStations 0 0 (1/10) 12).1 = 2 := by
  decide

/-- C9: for every requested radius at most 0.5 km (in particular zero
and negative values), the radius search behaves exactly as if the
radius were 0.5 km: payload and executed queries coincide. -/
theorem stations_within_radius_radius_floor (d : ℚ → ℚ → ℚ) (cosAbsLat : ℚ)
    (stations : List StationRow) (lat lon radius : ℚ) (limit : Nat)
    (h : radius ≤ 1/2) :
    stationsWithinRadiusRun d cosAbsLat stations lat lon radius limit =
      stationsWithinRadiusRun d cosAbsLat stations lat lon (1/2) limit := by
  unfold stationsWithinRadiusRun
  rw [show effectiveRadius radius = effectiveRadius (1/2) by
    unfold effectiveRadius
    rw [max_eq_left h, max_self]]

/-- Witness for the C9 theorem at radius zero. -/
theorem stations_within_radius_radius_floor_witness :
    ((0 : ℚ) ≤ 1/2) ∧
      stationsWithinRadiusRun (fun _ _ => 1/4) 1 cexStations 0 0 0 12 =
        stationsWithinRadiusRun (fun _ _ => 1/4) 1 cexStations 0 0 (1/2) 12 :=
  ⟨by norm_num,
    stations_within_radius_radius_floor (fun _ _ => 1/4) 1 cexStations 0 0 0 12 (by norm_num)⟩

/-- Outcome of one conn.executemany call inside the retry loop of
DwdImporterCore._executemany_with_retry (core.py lines 174-196):
success, a sqlite3.OperationalError whose lowercased message contains
the word locked, or any other storage error (a non-locked
OperationalError re-raised by the else path, or an exception that the
except clause does not catch at all). -/
inductive RunOutcome where
  | ok
  | lockErr
  | otherErr (msg : String)
deriving DecidableEq

/-- Error propagated out of the retry loop. -/
inductive ExecError where
  | lock
  | other (msg : String)
deriving DecidableEq

/-- Result of the retry loop: outcome, number of executemany calls
made, and the sequence of sleep durations in seconds. -/
structure ExecResult where
  result : Except ExecError Unit
  calls : Nat
  sleeps : List Rat

instance {ε α : Type} [DecidableEq ε] [DecidableEq α] : DecidableEq (Except ε α) := fun a b =>
  match a, b with
  | Except.ok x, Except.ok y =>
    if h : x = y then isTrue (by rw [h]) else isFalse fun hc => h (Except.ok.inj hc)
  | Except.error x, Except.error y =>
    if h : x = y then isTrue (by rw [h]) else isFalse fun hc => h (Except.error.inj hc)
  | Except.ok _, Except.error _ => isFalse fun hc => Except.noConfusion hc
  | Except.error _, Except.ok _ => isFalse fun hc => Except.noConfusion hc

instance : DecidableEq ExecResult := fun a b =>
  if h1 : a.result = b.result then
    if h2 : a.calls = b.calls then
      if h3 : a.sleeps = b.sleeps then
        isTrue (by cases a; cases b; simp_all)
      else isFalse fun hc => h3 (by rw [hc])
    else isFalse fun hc => h2 (by rw [hc])
  else isFalse fun hc => h1 (by rw [hc])

/-- Shallow embedding of the while-True loop of
_executemany_with_retry. The source guard is
attempts < SQLITE_LOCK_RETRIES with attempts incremented before each
retry; at every call attempts + fuel = SQLITE_LOCK_RETRIES holds for
the entry point below, so the guard is equivalent to fuel being
positive, which makes the recursion structural. A retry sleeps
SQLITE_LOCK_SLEEP * attempts with the incremented counter
(core.py line 186). -/
def executemanyRetryGo (outcome : Nat → RunOutcome) : Nat → Nat → ExecResult
  | attempts, 0 =>
    match outcome attempts with
    | RunOutcome.ok => ⟨Except.ok (), attempts + 1, []⟩
    | RunOutcome.otherErr m => ⟨Except.error (ExecError.other m), attempts + 1, []⟩
    | RunOutcome.lockErr => ⟨Except.error ExecError.lock, attempts + 1, []⟩
  | attempts, fuel' + 1 =>
    match outcome attempts with
    | RunOutcome.ok => ⟨Except.ok (), attempts + 1, []⟩
    | RunOutcome.otherErr m => ⟨Except.error (ExecError.other m), attempts + 1, []⟩
    | RunOutcome.lockErr =>
      ⟨(executemanyRetryGo outcome (attempts + 1) fuel').result,
        (executemanyRetryGo outcome (attempts + 1) fuel').calls,
        SQLITE_LOCK_SLEEP * ((attempts + 1 : Nat) : ℚ) ::
          (executemanyRetryGo outcome (attempts + 1) fuel').sleeps⟩

/-- Shallow embedding of _executemany_with_retry: run the loop with the
attempts counter at zero and the full retry budget. -/
def executemanyWithRetry (outcome : Nat → RunOutcome) : ExecResult :=
  executemanyRetryGo outcome 0 SQLITE_LOCK_RETRIES

theorem executemanyRetryGo_calls_le (outcome : Nat → RunOutcome) :
    ∀ fuel attempts, (executemanyRetryGo outcome attempts fuel).calls ≤ attempts + fuel + 1 := by
  intro fuel
  induction fuel with
  | zero =>
    intro attempts
    cases h : outcome attempts <;> simp [executemanyRetryGo, h]
  | succ fuel ih =>
    intro attempts
    cases h : outcome attempts with
    | ok => simp [executemanyRetryGo, h]
    | otherErr m => simp [executemanyRetryGo, h]
    | lockErr =>
      simp only [executemanyRetryGo, h]
      have := ih (attempts + 1)
      omega

theorem executemanyRetryGo_other (outcome : Nat → RunOutcome) (m : String) :
    ∀ j attempts fuel, j ≤ fuel →
      (∀ i, i < j → outcome (attempts + i) = RunOutcome.lockErr) →
      outcome (attempts + j) = RunOutcome.otherErr m →
      executemanyRetryGo outcome attempts fuel =
        ⟨Except.error (ExecError.other m), attempts + j + 1,
          (List.range j).map fun i => SQLITE_LOCK_SLEEP * ((attempts + i + 1 : Nat) : ℚ)⟩ := by
  intro j
  induction j with
  | zero =>
    intro attempts fuel _ _ hother
    rw [show attempts + 0 = attempts by omega] at hother
    cases fuel <;> simp [executemanyRetryGo, hother]
  | succ j ih =>
    intro attempts fuel hle hlock hother
    have h0 : outcome attempts = RunOutcome.lockErr := by
      have := hlock 0 (by omega)
      rwa [show attempts + 0 = attempts by omega] at this
    obtain ⟨fuel', rfl⟩ : ∃ f, fuel = f + 1 := ⟨fuel - 1, by omega⟩
    have hrec := ih (attempts + 1) fuel' (by omega)
      (fun i hi => by
        have := hlock (i + 1) (by omega)
        rwa [show attempts + (i + 1) = attempts + 1 + i by omega] at this)
      (by rwa [show attempts + 1 + j = attempts + (j + 1) by omega])
    simp only [executemanyRetryGo, h0, hrec]
    simp only [ExecResult.mk.injEq]
    refine ⟨by simp, by omega, ?_⟩
    rw [List.range_succ_eq_map, List.map_cons, List.map_map]
    refine congrArg₂ List.cons ?_ ?_
    · push_cast
      ring
    · apply List.map_congr_left
      intro i _
      simp only [Function.comp_apply]
      push_cast
      ring

theorem executemanyRetryGo_allLock (outcome : Nat → RunOutcome) :
    ∀ fuel attempts,
      (∀ i, i ≤ fuel → outcome (attempts + i) = RunOutcome.lockErr) →
      executemanyRetryGo outcome attempts fuel =
        ⟨Except.error ExecError.lock, attempts + fuel + 1,
          (List.range fuel).map fun i => SQLITE_LOCK_SLEEP * ((attempts + i + 1 : Nat) : ℚ)⟩ := by
  intro fuel
  induction fuel with
  | zero =>
    intro attempts hlock
    have h0 := hlock 0 (by omega)
    rw [show attempts + 0 = attempts by omega] at h0
    simp [executemanyRetryGo, h0]
  | succ fuel ih =>
    intro attempts hlock
    have h0 := hlock 0 (by omega)
    rw [show attempts + 0 = attempts by omega] at h0
    have hrec := ih (attempts + 1) (fun i hi => by
      have := hlock (i + 1) (by omega)
      rwa [show attempts + (i + 1) = attempts + 1 + i by omega] at this)
    simp only [executemanyRetryGo, h0, hrec]
    simp only [ExecResult.mk.injEq]
    refine ⟨by simp, by omega, ?_⟩
    rw [List.range_succ_eq_map, List.map_cons, List.map_map]
    refine congrArg₂ List.cons ?_ ?_
    · push_cast
      ring
    · apply List.map_congr_left
      intro i _
      simp only [Function.comp_apply]
      push_cast
      ring

/-- C8: the batch writer retries a lock-contention failure at most
SQLITE_LOCK_RETRIES = 5 times, sleeping attempt times SQLITE_LOCK_SLEEP
(linearly increasing) before each retry, and re-raises the lock error
once retries are exhausted (six calls, five sleeps of 1s..5s); any
storage error that is not a lock-contention failure, first occurring at
call j after j lock failures, propagates at that call with no further
retry and no additional sleep. -/
theorem executemany_with_retry_policy (outcome : Nat → RunOutcome) :
    ((executemanyWithRetry outcome).calls ≤ SQLITE_LOCK_RETRIES + 1) ∧
    (∀ j m, j ≤ SQLITE_LOCK_RETRIES →
      (∀ i, i < j → outcome i = RunOutcome.lockErr) →
      outcome j = RunOutcome.otherErr m →
      executemanyWithRetry outcome =
        ⟨Except.error (ExecError.other m), j + 1,
          (List.range j).map fun i => SQLITE_LOCK_SLEEP * ((i + 1 : Nat) : ℚ)⟩) ∧
    ((∀ i, i ≤ SQLITE_LOCK_RETRIES → outcome i = RunOutcome.lockErr) →
      executemanyWithRetry outcome =
        ⟨Except.error ExecError.lock, SQLITE_LOCK_RETRIES + 1,
          (List.range SQLITE_LOCK_RETRIES).map fun i => SQLITE_LOCK_SLEEP * ((i + 1 : Nat) : ℚ)⟩) := by
  refine ⟨?_, ?_, ?_⟩
  · have := executemanyRetryGo_calls_le outcome SQLITE_LOCK_RETRIES 0
    unfold executemanyWithRetry
    omega
  · intro j m hj hlock hother
    have hres := executemanyRetryGo_other outcome m j 0 SQLITE_LOCK_RETRIES hj
      (fun i hi => by simpa using hlock i hi) (by simpa using hother)
    unfold executemanyWithRetry
    rw [hres]
    simp only [ExecResult.mk.injEq]
    refine ⟨by simp, by omega, List.map_congr_left fun i _ => by push_cast; ring⟩
  · intro hlock
    have hres := executemanyRetryGo_allLock outcome SQLITE_LOCK_RETRIES 0
      (fun i hi => by simpa using hlock i hi)
    unfold executemanyWithRetry
    rw [hres]
    simp only [ExecResult.mk.injEq]
    refine ⟨by simp, by omega, List.map_congr_left fun i _ => by push_cast; ring⟩

/-- Witness for the C8 theorem: with every call failing on lock
contention, the writer makes six calls, sleeps 1s, 2s, 3s, 4s, 5s, and
re-raises the lock error. -/
theorem executemany_with_retry_policy_witness :
    (∀ i, i ≤ SQLITE_LOCK_RETRIES → (fun _ => RunOutcome.lockErr) i = RunOutcome.lockErr) ∧
      executemanyWithRetry (fun _ => RunOutcome.lockErr) =
        ⟨Except.error ExecError.lock, 6, [1, 2, 3, 4, 5]⟩ :=
  ⟨fun _ _ => rfl, by
    rw [(executemany_with_retry_policy (fun _ => RunOutcome.lockErr)).2.2 (fun _ _ => rfl)]
    decide⟩


/-- Per-run statistics of the daily archive import
(src/src/importers/dwd/models.py, DailyImportStats). -/
structure DailyImportStats where
  inserted : Nat
  updated : Nat
  archives_processed : Nat
  archives_failed : Nat
  errors : List String
deriving DecidableEq

/-- Zero-initialized statistics, as built by DailyImportStats(). -/
def initialDailyStats : DailyImportStats := ⟨0, 0, 0, 0, []⟩

/-- Percentage clamp of DwdImporterCore._update_progress
(core.py line 50): max(0.0, min(100.0, percent)). -/
def clampPercent (p : ℚ) : ℚ := max 0 (min 100 p)

/-- The fraction processed_total / total_archives with the truthiness
guard of daily.py line 65 (1.0 when total is zero). -/
def archiveFraction (processedTotal total : Nat) : ℚ :=
  if total = 0 then 1 else (processedTotal : ℚ) / (total : ℚ)

/-- One iteration of the archive loop (daily.py lines 45-62): on
success fold the inserted and updated counts and bump
archives_processed; on any exception bump archives_failed and append
the message, formatted filename colon error, to the error list. The
outcome oracle stands for _import_single_archive. -/
def archiveStep (outcome : String → Except String (Nat × Nat)) (st : DailyImportStats)
    (name : String) : DailyImportStats :=
  match outcome name with
  | Except.ok iu =>
      ⟨st.inserted + iu.1, st.updated + iu.2, st.archives_processed + 1,
        st.archives_failed, st.errors⟩
  | Except.error e =>
      ⟨st.inserted, st.updated, st.archives_processed, st.archives_failed + 1,
        st.errors ++ [name ++ ": " ++ e]⟩

/-- The archive loop with its per-archive progress events
(daily.py lines 45-84): each iteration, success or failure, emits one
event whose percentage is the clamped fraction of archives handled so
far. Returns the final statistics and the emitted percentages. -/
def processArchives (outcome : String → Except String (Nat × Nat)) (total : Nat) :
    DailyImportStats → List String → DailyImportStats × List ℚ
  | st, [] => (st, [])
  | st, name :: rest =>
    ((processArchives outcome total (archiveStep outcome st name) rest).1,
      clampPercent
          (archiveFraction ((archiveStep outcome st name).archives_processed +
            (archiveStep outcome st name).archives_failed) total * 100) ::
        (processArchives outcome total (archiveStep outcome st name) rest).2)

/-- Code-point lexicographic comparison of character lists, the order
Python uses for sorting strings. -/
def charListLe : List Char → List Char → Bool
  | [], _ => true
  | _ :: _, [] => false
  | a :: as, b :: bs => if a < b then true else if b < a then false else charListLe as bs

/-- Python str.endswith on the underlying character sequences. -/
def strEndsWith (s suffix : String) : Bool := List.isSuffixOf suffix.data s.data

/-- Stable insertion for the ascending sort of archive names. -/
def orderedInsertStr (x : String) : List String → List String
  | [] => [x]
  | y :: ys => if charListLe x.data y.data then x :: y :: ys else y :: orderedInsertStr x ys

/-- Stable ascending sort of archive names (archives.sort on the
filename key, daily.py line 29). -/
def sortStrings : List String → List String
  | [] => []
  | x :: xs => orderedInsertStr x (sortStrings xs)

/-- Archives discovered in the listing: names ending in the expected
suffix, sorted ascending (daily.py lines 19-29). -/
def discoveredArchives (listing : List String) : List String :=
  sortStrings (listing.filter fun n => strEndsWith n ARCHIVE_SUFFIX)

/-- Shallow embedding of DailyImportMixin._import_daily_archives
(daily.py lines 17-85): fatal (RuntimeError) exactly when no archive
with the expected suffix is discovered; otherwise emit the preparation
event at zero percent, run the loop, and return the folded statistics
together with the emitted progress percentages. -/
def importDailyArchives (listing : List String)
    (outcome : String → Except String (Nat × Nat)) :
    Except String (DailyImportStats × List ℚ) :=
  if (discoveredArchives listing).isEmpty then
    Except.error "No historical archives discovered in directory listing."
  else
    Except.ok
      ((processArchives outcome (discoveredArchives listing).length initialDailyStats
          (discoveredArchives listing)).1,
        clampPercent 0 ::
          (processArchives outcome (discoveredArchives listing).length initialDailyStats
            (discoveredArchives listing)).2)

/-- Shallow embedding of DwdKlImporter.run_full_refresh
(importer.py lines 16-44) restricted to its observable progress trace
and outcome. The station import (which emits no progress events of its
own) is abstracted by its result; the archive listing and the
per-archive outcomes feed the daily stage. The emitted percentages are:
prepare at 0, stations done at 100, then the daily-stage events, then
complete at 100. -/
def runFullRefresh (stationResult : Except String (Nat × Nat)) (listing : List String)
    (outcome : String → Except String (Nat × Nat)) :
    Except String ((Nat × Nat) × DailyImportStats) × List ℚ :=
  match stationResult with
  | Except.error e => (Except.error e, [clampPercent 0])
  | Except.ok s =>
    match importDailyArchives listing outcome with
    | Except.error e => (Except.error e, [clampPercent 0, clampPercent 100])
    | Except.ok dr =>
        (Except.ok (s, dr.1), [clampPercent 0, clampPercent 100] ++ dr.2 ++ [clampPercent 100])

theorem clampPercent_nonneg (p : ℚ) : 0 ≤ clampPercent p := le_max_left 0 _

theorem clampPercent_le_100 (p : ℚ) : clampPercent p ≤ 100 := by
  unfold clampPercent
  apply max_le
  · norm_num
  · exact min_le_left 100 p

theorem clampPercent_mono {p q : ℚ} (h : p ≤ q) : clampPercent p ≤ clampPercent q := by
  unfold clampPercent
  exact max_le_max (le_refl 0) (min_le_min (le_refl 100) h)

theorem archiveFraction_mono {a b : Nat} (total : Nat) (h : a ≤ b) :
    archiveFraction a total ≤ archiveFraction b total := by
  unfold archiveFraction
  by_cases ht : total = 0
  · simp [ht]
  · rw [if_neg ht, if_neg ht]
    have htpos : (0 : ℚ) < total := by
      have hp : 0 < total := Nat.pos_of_ne_zero ht
      exact_mod_cast hp
    have hc : (a : ℚ) ≤ (b : ℚ) := by exact_mod_cast h
    exact div_le_div_of_nonneg_right hc htpos.le

theorem archiveStep_count (outcome : String → Except String (Nat × Nat))
    (st : DailyImportStats) (name : String) :
    (archiveStep outcome st name).archives_processed +
        (archiveStep outcome st name).archives_failed =
      st.archives_processed + st.archives_failed + 1 := by
  unfold archiveStep
  cases outcome name <;> simp <;> omega

theorem processArchives_stats (outcome : String → Except String (Nat × Nat)) (total : Nat) :
    ∀ (names : List String) (st : DailyImportStats),
      (processArchives outcome total st names).1.archives_processed =
          st.archives_processed + names.countP (fun n => (outcome n).isOk) ∧
        (processArchives outcome total st names).1.archives_failed =
          st.archives_failed + names.countP (fun n => !(outcome n).isOk) ∧
        (processArchives outcome total st names).1.errors =
          st.errors ++ names.filterMap (fun n =>
            match outcome n with
            | Except.error e => some (n ++ ": " ++ e)
            | Except.ok _ => none) := by
  intro names
  induction names with
  | nil => intro st; simp [processArchives]
  | cons name rest ih =>
    intro st
    obtain ⟨ih1, ih2, ih3⟩ := ih (archiveStep outcome st name)
    refine ⟨?_, ?_, ?_⟩
    · rw [show (processArchives outcome total st (name :: rest)).1 =
          (processArchives outcome total (archiveStep outcome st name) rest).1 from rfl]
      rw [ih1, List.countP_cons]
      cases h : outcome name <;> simp [archiveStep, h, Except.isOk, Except.toBool] <;> omega
    · rw [show (processArchives outcome total st (name :: rest)).1 =
          (processArchives outcome total (archiveStep outcome st name) rest).1 from rfl]
      rw [ih2, List.countP_cons]
      cases h : outcome name <;> simp [archiveStep, h, Except.isOk, Except.toBool] <;> omega
    · rw [show (processArchives outcome total st (name :: rest)).1 =
          (processArchives outcome total (archiveStep outcome st name) rest).1 from rfl]
      rw [ih3, List.filterMap_cons]
      cases h : outcome name <;> simp [archiveStep, h]

theorem processArchives_events (outcome : String → Except String (Nat × Nat)) (total : Nat) :
    ∀ (names : List String) (st : DailyImportStats),
      (processArchives outcome total st names).2 =
        (List.range names.length).map fun i =>
          clampPercent
            (archiveFraction (st.archives_processed + st.archives_failed + i + 1) total
              * 100) := by
  intro names
  induction names with
  | nil => intro st; simp [processArchives]
  | cons name rest ih =>
    intro st
    rw [show (processArchives outcome total st (name :: rest)).2 =
        clampPercent
            (archiveFraction ((archiveStep outcome st name).archives_processed +
              (archiveStep outcome st name).archives_failed) total * 100) ::
          (processArchives outcome total (archiveStep outcome st name) rest).2 from rfl]
    rw [ih (archiveStep outcome st name), archiveStep_count]
    rw [List.length_cons, List.range_succ_eq_map, List.map_cons, List.map_map]
    refine congrArg₂ List.cons ?_ ?_
    · rw [show st.archives_processed + st.archives_failed + 1 =
        st.archives_processed + st.archives_failed + 0 + 1 by omega]
    · apply List.map_congr_left
      intro i _
      simp only [Function.comp_apply]
      rw [show st.archives_processed + st.archives_failed + 1 + i + 1 =
        st.archives_processed + st.archives_failed + i.succ + 1 by omega]

/-- C4: during a full-history import, per-archive failures are isolated
and accumulated: the run is fatal if and only if no archive with the
expected suffix is discovered; otherwise every discovered archive is
attempted, archives_processed counts exactly the archives whose import
succeeded, archives_failed counts exactly the failed ones (so a failed
archive increments archives_failed and a later valid archive still
increments archives_processed), their sum is the number of discovered
archives, and the error list collects exactly the failed archives'
messages. -/
theorem import_daily_archives_isolated_failures (listing : List String)
    (outcome : String → Except String (Nat × Nat)) :
    ((∃ e, importDailyArchives listing outcome = Except.error e) ↔
      discoveredArchives listing = []) ∧
    (∀ st evs, importDailyArchives listing outcome = Except.ok (st, evs) →
      st.archives_processed =
          (discoveredArchives listing).countP (fun n => (outcome n).isOk) ∧
        st.archives_failed =
          (discoveredArchives listing).countP (fun n => !(outcome n).isOk) ∧
        st.archives_processed + st.archives_failed = (discoveredArchives listing).length ∧
        st.errors = (discoveredArchives listing).filterMap (fun n =>
          match outcome n with
          | Except.error e => some (n ++ ": " ++ e)
          | Except.ok _ => none)) := by
  constructor
  · constructor
    · rintro ⟨e, he⟩
      unfold importDailyArchives at he
      by_cases hemp : (discoveredArchives listing).isEmpty
      · exact List.isEmpty_iff.mp hemp
      · rw [if_neg hemp] at he
        exact Except.noConfusion he
    · intro h
      refine ⟨"No historical archives discovered in directory listing.", ?_⟩
      unfold importDailyArchives
      rw [if_pos (by simp [h])]
  · intro st evs hok
    unfold importDailyArchives at hok
    by_cases hemp : (discoveredArchives listing).isEmpty
    · rw [if_pos hemp] at hok
      exact Except.noConfusion hok
    · rw [if_neg hemp] at hok
      obtain ⟨h1, h2, h3⟩ := processArchives_stats outcome
        (discoveredArchives listing).length (discoveredArchives listing) initialDailyStats
      have hst : st = (processArchives outcome (discoveredArchives listing).length
          initialDailyStats (discoveredArchives listing)).1 := by
        have := congrArg (fun x => match x with
          | Except.ok (p : DailyImportStats × List ℚ) => p.1
          | Except.error _ => st) hok
        simpa using this.symm
      rw [hst]
      refine ⟨by simpa [initialDailyStats] using h1, by simpa [initialDailyStats] using h2,
        ?_, by simpa [initialDailyStats] using h3⟩
      rw [h1, h2]
      simp only [initialDailyStats]
      have := List.length_eq_countP_add_countP (fun n => (outcome n).isOk)
        (l := discoveredArchives listing)
      rw [this]
      have hcong : (discoveredArchives listing).countP
          (fun n => !(outcome n).isOk) = (discoveredArchives listing).countP
          (fun n => decide ¬ ((outcome n).isOk = true)) := by
        apply List.countP_congr
        intro n _
        cases outcome n <;> simp [Except.isOk, Except.toBool]
      omega

/-- Witness for the C4 theorem: a listing with one bad archive (its ZIP
has no data file), one good archive, and one file that is not an
archive; the bad archive is recorded as failed with its message, the
good one as processed, and the run is not fatal. -/
theorem import_daily_archives_isolated_failures_witness :
    (importDailyArchives ["a_hist.zip", "b_hist.zip", "x.txt"]
        (fun n => if n = "a_hist.zip" then
          Except.error "Archive does not contain a data file." else Except.ok (3, 1)) =
      Except.ok (⟨3, 1, 1, 1, ["a_hist.zip: Archive does not contain a data file."]⟩,
        [0, 50, 100])) ∧
    ((∃ e, importDailyArchives ["a_hist.zip", "b_hist.zip", "x.txt"]
        (fun n => if n = "a_hist.zip" then
          Except.error "Archive does not contain a data file." else Except.ok (3, 1)) =
        Except.error e) ↔
      discoveredArchives ["a_hist.zip", "b_hist.zip", "x.txt"] = []) :=
  ⟨by decide,
    (import_daily_archives_isolated_failures ["a_hist.zip", "b_hist.zip", "x.txt"]
      (fun n => if n = "a_hist.zip" then
        Except.error "Archive does not contain a data file." else Except.ok (3, 1))).1⟩

theorem pairwise_le_map_range {f : Nat → ℚ} (hf : ∀ i j, i ≤ j → f i ≤ f j) (n : Nat) :
    List.Pairwise (fun a b => a ≤ b) ((List.range n).map f) :=
  List.Pairwise.map f (fun a b hab => hf a b (le_of_lt hab)) (List.pairwise_lt_range n)

theorem processArchives_events_bounds (outcome : String → Except String (Nat × Nat))
    (total : Nat) (names : List String) (st : DailyImportStats) :
    ∀ x ∈ (processArchives outcome total st names).2, 0 ≤ x ∧ x ≤ 100 := by
  rw [processArchives_events]
  intro x hx
  obtain ⟨i, _, rfl⟩ := List.mem_map.mp hx
  exact ⟨clampPercent_nonneg _, clampPercent_le_100 _⟩

theorem processArchives_events_pairwise (outcome : String → Except String (Nat × Nat))
    (total : Nat) (names : List String) (st : DailyImportStats) :
    List.Pairwise (fun a b => a ≤ b) (processArchives outcome total st names).2 := by
  rw [processArchives_events]
  apply pairwise_le_map_range
  intro i j hij
  apply clampPercent_mono
  apply mul_le_mul_of_nonneg_right _ (by norm_num : (0:ℚ) ≤ 100)
  exact archiveFraction_mono total (by omega)

/-- C1 (amended): from the daily-stage preparation event onward, the
progress percentages of a full-history run are monotonically
non-decreasing: the per-archive events rise with the fraction of
archives handled and stay within 0 and 100, and the completion event
reports 100. The first two events of the run (prepare at 0, stations
done at 100) precede the decrease exhibited by the counterexample, so
the trace with those two events dropped is the monotone part. -/
theorem run_full_refresh_progress_monotone_after_stations
    (stationResult : Except String (Nat × Nat)) (listing : List String)
    (outcome : String → Except String (Nat × Nat)) :
    List.Pairwise (fun a b => a ≤ b)
      (((runFullRefresh stationResult listing outcome).2).drop 2) := by
  cases stationResult with
  | error e => simp [runFullRefresh]
  | ok s =>
    unfold runFullRefresh
    cases h : importDailyArchives listing outcome with
    | error e => simp
    | ok dr =>
      simp only [List.cons_append, List.nil_append, List.drop_succ_cons, List.drop_zero]
      unfold importDailyArchives at h
      by_cases hemp : (discoveredArchives listing).isEmpty
      · rw [if_pos hemp] at h
        exact Except.noConfusion h
      · rw [if_neg hemp] at h
        have hdr : dr.2 = clampPercent 0 ::
            (processArchives outcome (discoveredArchives listing).length initialDailyStats
              (discoveredArchives listing)).2 := by
          have := congrArg (fun x => match x with
            | Except.ok (p : DailyImportStats × List ℚ) => p.2
            | Except.error _ => dr.2) h
          simpa using this.symm
        rw [hdr]
        rw [List.cons_append]
        have h0 : clampPercent 0 = 0 := by unfold clampPercent; norm_num
        have h100 : clampPercent 100 = 100 := by unfold clampPercent; norm_num
        apply List.Pairwise.cons
        · intro b hb
          rcases List.mem_append.mp hb with hb1 | hb2
          · have hbound := (processArchives_events_bounds outcome
              (discoveredArchives listing).length (discoveredArchives listing)
              initialDailyStats b hb1).1
            rw [h0]
            exact hbound
          · have hbv : b = clampPercent 100 := by simpa using hb2
            rw [hbv, h0, h100]
            norm_num
        · rw [List.pairwise_append]
          refine ⟨processArchives_events_pairwise outcome
              (discoveredArchives listing).length (discoveredArchives listing)
              initialDailyStats, by simp, ?_⟩
          intro a ha b hb
          have hb100 : b = clampPercent 100 := by simpa using hb
          have ha100 := (processArchives_events_bounds outcome
            (discoveredArchives listing).length (discoveredArchives listing)
            initialDailyStats a ha).2
          rw [hb100, h100]
          exact ha100

/-- C1 counterexample: in a full-history run over one archive that
imports cleanly, the delivered progress percentages are 0, 100, 0, 100,
100: the stations-stage completion reports 100 and the daily-stage
preparation event then reports 0, so the observed progress is not
monotonically non-decreasing. -/
theorem run_full_refresh_progress_not_monotone :
    (runFullRefresh (Except.ok (7, 0)) ["a_hist.zip"] (fun _ => Except.ok (1, 0))).2 =
        [0, 100, 0, 100, 100] ∧
      ¬ List.Pairwise (fun a b => a ≤ b)
          ((runFullRefresh (Except.ok (7, 0)) ["a_hist.zip"] (fun _ => Except.ok (1, 0))).2) := by
  constructor
  · decide
  · decide


/-- One row upsert: ON CONFLICT(key) DO UPDATE SET all non-key columns
to the incoming values: replace the row in place when the key exists,
append otherwise. -/
def upsertRow {K V : Type} [DecidableEq K] (store : List (K × V)) (k : K) (v : V) :
    List (K × V) :=
  if k ∈ store.map Prod.fst then
    store.map fun kv => if kv.1 = k then (k, v) else kv
  else store ++ [(k, v)]

/-- Result of the existence query issued before the write
(_fetch_existing_station_ids, stations.py lines 192-200, and
_fetch_existing_daily_pairs, daily.py lines 206-215): the store rows
whose key occurs among the batch keys. The store keys are unique
(primary key), so this list enumerates the distinct batch keys already
present, matching the Python set the source builds. -/
def existingKeys {K V : Type} [DecidableEq K] (store : List (K × V)) (keys : List K) :
    List K :=
  (store.map Prod.fst).filter fun k => decide (k ∈ keys)

/-- Shallow embedding common to _persist_station_batch
(stations.py lines 54-95) and _persist_daily_batch
(daily.py lines 138-204): an empty batch returns (0, 0) and writes
nothing; otherwise determine which keys already exist, execute the
multi-row upsert (later duplicates overwrite earlier ones, as
executemany processes parameters in order), and report
inserted = len(records) - len(existing), updated = len(existing).
Records are (key, value) pairs; the value collects every non-key
column, which the counting never inspects. -/
def persistBatch {K V : Type} [DecidableEq K] (store : List (K × V))
    (records : List (K × V)) : List (K × V) × Nat × Nat :=
  if records.isEmpty then (store, 0, 0)
  else
    (records.foldl (fun s r => upsertRow s r.1 r.2) store,
      records.length - (existingKeys store (records.map Prod.fst)).length,
      (existingKeys store (records.map Prod.fst)).length)

/-- _persist_station_batch: keys are station ids; the value type
collects the remaining station columns. -/
def persistStationBatch {V : Type} (store : List (Nat × V)) (records : List (Nat × V)) :
    List (Nat × V) × Nat × Nat :=
  persistBatch store records

/-- _persist_daily_batch: keys are (station_id, date) pairs; the value
type collects the measurement columns, provenance and timestamp. -/
def persistDailyBatch {V : Type} (store : List ((Nat × Option String) × V))
    (records : List ((Nat × Option String) × V)) :
    List ((Nat × Option String) × V) × Nat × Nat :=
  persistBatch store records

/-- The count the claim describes: the number of distinct batch keys
that already existed in storage before the write. -/
def existingCountSpec {K V : Type} [DecidableEq K] (store : List (K × V))
    (records : List (K × V)) : Nat :=
  ((records.map Prod.fst).dedup.filter fun k => decide (k ∈ store.map Prod.fst)).length

theorem existingKeys_length_eq {K : Type} [DecidableEq K] (storeKeys keys : List K)
    (hnd : storeKeys.Nodup) :
    (storeKeys.filter fun k => decide (k ∈ keys)).length =
      (keys.dedup.filter fun k => decide (k ∈ storeKeys)).length := by
  have h1 : (storeKeys.filter fun k => decide (k ∈ keys)).Nodup := hnd.filter _
  have h2 : (keys.dedup.filter fun k => decide (k ∈ storeKeys)).Nodup :=
    (List.nodup_dedup keys).filter _
  rw [← List.toFinset_card_of_nodup h1, ← List.toFinset_card_of_nodup h2]
  congr 1
  ext x
  simp only [List.mem_toFinset, List.mem_filter, List.mem_dedup, decide_eq_true_eq]
  exact and_comm

theorem persistBatch_counts {K V : Type} [DecidableEq K] (store : List (K × V))
    (records : List (K × V)) (hne : records ≠ [])
    (hnd : (store.map Prod.fst).Nodup) :
    (persistBatch store records).2 =
      (records.length - existingCountSpec store records, existingCountSpec store records) := by
  unfold persistBatch
  rw [if_neg (by simpa using hne)]
  unfold existingCountSpec existingKeys
  rw [existingKeys_length_eq (store.map Prod.fst) (records.map Prod.fst) hnd]

/-- C5: for every non-empty batch handed to the batch upsert writer
(station records keyed by station id, or daily records keyed by
station id and date), provided the store keys are unique as the
primary key guarantees, the returned pair is
(batchSize - existingCount, existingCount) where existingCount is the
number of the batch's distinct keys that already existed in storage
before the write; the values stored or written are never consulted, so
the counts are the same whether or not the upsert changes any column. -/
theorem persist_batch_insert_update_counts :
    (∀ (V : Type) (store records : List (Nat × V)), records ≠ [] →
      (store.map Prod.fst).Nodup →
      (persistStationBatch store records).2 =
        (records.length - existingCountSpec store records,
          existingCountSpec store records)) ∧
    (∀ (V : Type) (store records : List ((Nat × Option String) × V)), records ≠ [] →
      (store.map Prod.fst).Nodup →
      (persistDailyBatch store records).2 =
        (records.length - existingCountSpec store records,
          existingCountSpec store records)) :=
  ⟨fun _ store records hne hnd => persistBatch_counts store records hne hnd,
    fun _ store records hne hnd => persistBatch_counts store records hne hnd⟩

/-- Witness for the C5 theorem: a station batch of two records, one of
which re-upserts an unchanged stored row; the writer reports one
insert and one update. -/
theorem persist_batch_insert_update_counts_witness :
    (([((1 : Nat), (5 : Nat)), (2, 7)] : List (Nat × Nat)) ≠ []) ∧
      (persistStationBatch [((1 : Nat), (5 : Nat))] [(1, 5), (2, 7)]).2 = (1, 1) := by
  refine ⟨by decide, ?_⟩
  rw [persist_batch_insert_update_counts.1 Nat [(1, 5)] [(1, 5), (2, 7)]
    (by decide) (by decide)]
  decide


/-- Sentinel strings mapped to missing values (constants.py). -/
def SENTINEL_VALUES : List String := ["-999", "-999.0", "-9999", "-9999.0"]

/-- Leading byte-order marks removed by lstrip on the station id
(core.py line 123). -/
def dropBom : List Char → List Char
  | [] => []
  | c :: cs => if c = Char.ofNat 0xFEFF then dropBom cs else c :: cs

/-- Python str.strip(): remove leading and trailing whitespace (the
model covers the ASCII whitespace that occurs in the data files). -/
def strTrim (s : String) : String :=
  ⟨((s.data.dropWhile Char.isWhitespace).reverse.dropWhile Char.isWhitespace).reverse⟩

/-- Numeric value of an all-digit string, as int() computes it. -/
def digitsToNat (cs : List Char) : Nat := cs.foldl (fun n c => 10 * n + (c.toNat - 48)) 0

/-- Shallow embedding of DwdImporterCore._normalize_station_id
(core.py lines 120-133): strip whitespace and leading BOM; empty,
non-numeric (str.isdigit is modelled on the decimal digits occurring
in the data) and non-positive identifiers yield no value, each with a
logged warning in the source; otherwise the parsed positive integer. -/
def normalizeStationId (value : Option String) : Option Nat :=
  match value with
  | none => none
  | some v =>
    let text := dropBom (strTrim v).data
    if text.isEmpty then none
    else if !(text.all Char.isDigit) then none
    else
      let station_id := digitsToNat text
      if station_id ≤ 0 then none
      else some station_id

/-- Shallow embedding of DwdImporterCore._normalize_date
(core.py lines 135-149): empty and sentinel values yield no value;
an eight-digit string YYYYMMDD is rewritten to YYYY-MM-DD; a
ten-character string with two dashes is returned as is; any other
value is returned unchanged (the strptime fallback of the source
re-parses eight-digit strings, which the earlier branch already
covers, and otherwise returns the value unchanged). -/
def normalizeDate (value : Option String) : Option String :=
  match value with
  | none => none
  | some v0 =>
    let v := strTrim v0
    if v.data.isEmpty then none
    else if v ∈ SENTINEL_VALUES then none
    else if v.data.length = 8 && v.data.all Char.isDigit then
      some (⟨v.data.take 4⟩ ++ "-" ++ ⟨(v.data.drop 4).take 2⟩ ++ "-" ++ ⟨v.data.drop 6⟩)
    else if v.data.length = 10 && (v.data.count '-' == 2) then some v
    else some v

/-- A normalized daily record: the (station_id, date) key fields plus
an abstract value collecting the typed measurement columns and the
source filename, which the keyed buffering never inspects. -/
structure DailyRecord (α : Type) where
  station_id : Nat
  date : Option String
  value : α
deriving DecidableEq

/-- The buffer key (normalized station_id, normalized date),
daily.py line 125. -/
def dKey {α : Type} (r : DailyRecord α) : Nat × Option String := (r.station_id, r.date)

/-- A raw parsed CSV row as seen by _normalize_daily_record: the two
key columns by name, all remaining columns abstracted. -/
structure RawDailyRow (α : Type) where
  stations_id : Option String
  mess_datum : Option String
  rest : α

/-- Shallow embedding of DailyImportMixin._normalize_daily_record
(daily.py lines 217-230): drop the record when the station id does not
normalize or the raw date is missing or empty; otherwise build the
keyed record, carrying the remaining columns through. -/
def normalizeDailyRecord {α : Type} (p : RawDailyRow α) : Option (DailyRecord α) :=
  match normalizeStationId p.stations_id with
  | none => none
  | some sid =>
    match p.mess_datum with
    | none => none
    | some date_raw =>
      if date_raw.data.isEmpty then none
      else some ⟨sid, normalizeDate (some date_raw), p.rest⟩

/-- Fold records into an insert-or-replace buffer keyed by the given
function (batch[key] = normalized in a Python dict: replacement keeps
the original position, a new key is appended). -/
def foldInsert {K V : Type} [DecidableEq K] (key : V → K) (buf : List (K × V))
    (rs : List V) : List (K × V) :=
  rs.foldl (fun b r => upsertRow b (key r) r) buf

/-- First-occurrence deduplication of a key sequence: the order in
which a Python dict enumerates its keys. -/
def firstDedup {K : Type} [DecidableEq K] (l : List K) : List K :=
  l.foldl (fun acc k => if k ∈ acc then acc else acc ++ [k]) []

/-- The streaming loop of _parse_and_store_daily (daily.py lines
113-135) on the stream of per-row normalization results: skip dropped
rows, insert the rest into the buffer, flush the buffer values to the
writer when the buffer reaches CHUNK_SIZE entries, and flush the
remainder when the stream ends. Returns the flushed batches. -/
def parseDailyLoop {α : Type} (chunk : Nat)
    (buf : List ((Nat × Option String) × DailyRecord α)) :
    List (Option (DailyRecord α)) → List (List (DailyRecord α))
  | [] => if buf.isEmpty then [] else [buf.map Prod.snd]
  | none :: rest => parseDailyLoop chunk buf rest
  | some r :: rest =>
    if chunk ≤ (upsertRow buf (dKey r) r).length then
      (upsertRow buf (dKey r) r).map Prod.snd :: parseDailyLoop chunk [] rest
    else parseDailyLoop chunk (upsertRow buf (dKey r) r) rest

/-- _parse_and_store_daily restricted to its batching behaviour: the
batches handed to _persist_daily_batch, in order, for a given stream
of normalization results. -/
def parseAndStoreDailyBatches {α : Type} (input : List (Option (DailyRecord α))) :
    List (List (DailyRecord α)) :=
  parseDailyLoop CHUNK_SIZE [] input

theorem upsertRow_fst_keys {K V : Type} [DecidableEq K] (buf : List (K × V)) (k : K) (v : V) :
    (upsertRow buf k v).map Prod.fst =
      if k ∈ buf.map Prod.fst then buf.map Prod.fst else buf.map Prod.fst ++ [k] := by
  unfold upsertRow
  by_cases h : k ∈ buf.map Prod.fst
  · rw [if_pos h, if_pos h, List.map_map]
    apply List.map_congr_left
    intro kv _
    simp only [Function.comp_apply]
    by_cases hk : kv.1 = k
    · rw [if_pos hk]; exact hk.symm
    · rw [if_neg hk]
  · rw [if_neg h, if_neg h, List.map_append]
    rfl

theorem upsertRow_length {K V : Type} [DecidableEq K] (buf : List (K × V)) (k : K) (v : V) :
    (upsertRow buf k v).length =
      if k ∈ buf.map Prod.fst then buf.length else buf.length + 1 := by
  unfold upsertRow
  by_cases h : k ∈ buf.map Prod.fst
  · rw [if_pos h, if_pos h, List.length_map]
  · rw [if_neg h, if_neg h, List.length_append]
    rfl

theorem upsertRow_length_le {K V : Type} [DecidableEq K] (buf : List (K × V)) (k : K) (v : V) :
    (upsertRow buf k v).length ≤ buf.length + 1 := by
  rw [upsertRow_length]
  by_cases h : k ∈ buf.map Prod.fst
  · rw [if_pos h]; omega
  · rw [if_neg h]

theorem mem_upsertRow {K V : Type} [DecidableEq K] (buf : List (K × V)) (k : K) (v : V)
    (e : K × V) :
    e ∈ upsertRow buf k v ↔ (e = (k, v) ∨ (e ∈ buf ∧ e.1 ≠ k)) := by
  unfold upsertRow
  by_cases h : k ∈ buf.map Prod.fst
  · rw [if_pos h]
    constructor
    · intro he
      obtain ⟨kv, hkv, heq⟩ := List.mem_map.mp he
      by_cases hk : kv.1 = k
      · rw [if_pos hk] at heq
        exact Or.inl heq.symm
      · rw [if_neg hk] at heq
        exact Or.inr ⟨heq ▸ hkv, heq ▸ hk⟩
    · rintro (rfl | ⟨hmem, hne⟩)
      · obtain ⟨kv0, hkv0, hk0⟩ := List.mem_map.mp h
        refine List.mem_map.mpr ⟨kv0, hkv0, ?_⟩
        rw [if_pos hk0]
      · refine List.mem_map.mpr ⟨e, hmem, ?_⟩
        rw [if_neg hne]
  · rw [if_neg h]
    rw [List.mem_append]
    constructor
    · rintro (hmem | hone)
      · refine Or.inr ⟨hmem, ?_⟩
        intro hk
        exact h (List.mem_map.mpr ⟨e, hmem, hk⟩)
      · exact Or.inl (by simpa using hone)
    · rintro (rfl | ⟨hmem, _⟩)
      · exact Or.inr (by simp)
      · exact Or.inl hmem

theorem self_mem_upsertRow {K V : Type} [DecidableEq K] (buf : List (K × V)) (k : K) (v : V) :
    (k, v) ∈ upsertRow buf k v :=
  (mem_upsertRow buf k v (k, v)).mpr (Or.inl rfl)

theorem foldInsert_concat {K V : Type} [DecidableEq K] (key : V → K) (buf : List (K × V))
    (rs : List V) (r : V) :
    foldInsert key buf (rs ++ [r]) = upsertRow (foldInsert key buf rs) (key r) r := by
  unfold foldInsert
  rw [List.foldl_append]
  rfl

theorem foldInsert_mem_nil {K V : Type} [DecidableEq K] (key : V → K) (rs : List V)
    (e : K × V) (he : e ∈ foldInsert key [] rs) :
    e.1 = key e.2 ∧ (rs.filter fun x => decide (key x = e.1)).getLast? = some e.2 := by
  induction rs using List.reverseRecOn generalizing e with
  | nil => simp [foldInsert] at he
  | append_singleton rs r ih =>
    rw [foldInsert_concat] at he
    rcases (mem_upsertRow _ _ _ _).mp he with rfl | ⟨hmem, hne⟩
    · refine ⟨rfl, ?_⟩
      rw [List.filter_append]
      simp
    · obtain ⟨hkey, hlast⟩ := ih e hmem
      refine ⟨hkey, ?_⟩
      rw [List.filter_append]
      have : [r].filter (fun x => decide (key x = e.1)) = [] := by
        simp only [List.filter]
        have : ¬ (key r = e.1) := fun hc => hne (by rw [hc])
        simp [this]
      rw [this, List.append_nil]
      exact hlast

theorem foldInsert_keys {K V : Type} [DecidableEq K] (key : V → K) :
    ∀ (rs : List V) (buf : List (K × V)),
      (foldInsert key buf rs).map Prod.fst =
        (rs.map key).foldl (fun acc k => if k ∈ acc then acc else acc ++ [k])
          (buf.map Prod.fst) := by
  intro rs
  induction rs with
  | nil => intro buf; rfl
  | cons r rest ih =>
    intro buf
    rw [show foldInsert key buf (r :: rest) = foldInsert key (upsertRow buf (key r) r) rest
      from rfl]
    rw [ih, List.map_cons, List.foldl_cons, upsertRow_fst_keys]

theorem foldInsert_keys_nil {K V : Type} [DecidableEq K] (key : V → K) (rs : List V) :
    (foldInsert key [] rs).map Prod.fst = firstDedup (rs.map key) := by
  rw [foldInsert_keys]
  rfl

theorem parseDailyLoop_skip_none {α : Type} (chunk : Nat) :
    ∀ (xs : List (Option (DailyRecord α))) (buf) (ys : List (Option (DailyRecord α))),
      parseDailyLoop chunk buf (xs ++ none :: ys) = parseDailyLoop chunk buf (xs ++ ys) := by
  intro xs
  induction xs with
  | nil => intro buf ys; rfl
  | cons x rest ih =>
    intro buf ys
    cases x with
    | none =>
      rw [List.cons_append, List.cons_append]
      rw [show parseDailyLoop chunk buf (none :: (rest ++ none :: ys)) =
        parseDailyLoop chunk buf (rest ++ none :: ys) from rfl]
      rw [show parseDailyLoop chunk buf (none :: (rest ++ ys)) =
        parseDailyLoop chunk buf (rest ++ ys) from rfl]
      exact ih buf ys
    | some r =>
      rw [List.cons_append, List.cons_append]
      show (if chunk ≤ (upsertRow buf (dKey r) r).length then
          (upsertRow buf (dKey r) r).map Prod.snd ::
            parseDailyLoop chunk [] (rest ++ none :: ys)
        else parseDailyLoop chunk (upsertRow buf (dKey r) r) (rest ++ none :: ys)) =
        (if chunk ≤ (upsertRow buf (dKey r) r).length then
          (upsertRow buf (dKey r) r).map Prod.snd :: parseDailyLoop chunk [] (rest ++ ys)
        else parseDailyLoop chunk (upsertRow buf (dKey r) r) (rest ++ ys))
      by_cases h : chunk ≤ (upsertRow buf (dKey r) r).length
      · rw [if_pos h, if_pos h, ih [] ys]
      · rw [if_neg h, if_neg h]
        exact ih _ ys


theorem keys_mono_upsertRow {K V : Type} [DecidableEq K] (buf : List (K × V)) (k : K) (v : V)
    (x : K) (hx : x ∈ buf.map Prod.fst) : x ∈ (upsertRow buf k v).map Prod.fst := by
  rw [upsertRow_fst_keys]
  by_cases h : k ∈ buf.map Prod.fst
  · rw [if_pos h]; exact hx
  · rw [if_neg h]; exact List.mem_append.mpr (Or.inl hx)

theorem parseDailyLoop_sizes {α : Type} (chunk : Nat) (hchunk : 0 < chunk) :
    ∀ (input : List (Option (DailyRecord α))) (buf), buf.length < chunk →
      (∀ b ∈ parseDailyLoop chunk buf input, 1 ≤ b.length ∧ b.length ≤ chunk) ∧
      (∀ b ∈ (parseDailyLoop chunk buf input).dropLast, b.length = chunk) := by
  intro input
  induction input with
  | nil =>
    intro buf hlt
    constructor
    · intro b hb
      unfold parseDailyLoop at hb
      by_cases he : buf.isEmpty
      · rw [if_pos he] at hb
        simp at hb
      · rw [if_neg he] at hb
        have hbv : b = buf.map Prod.snd := by simpa using hb
        subst hbv
        rw [List.length_map]
        have hne : buf ≠ [] := by simpa [List.isEmpty_iff] using he
        have hpos : 0 < buf.length := List.length_pos.mpr hne
        exact ⟨hpos, le_of_lt hlt⟩
    · intro b hb
      unfold parseDailyLoop at hb
      by_cases he : buf.isEmpty
      · rw [if_pos he] at hb
        simp at hb
      · rw [if_neg he] at hb
        simp at hb
  | cons x rest ih =>
    intro buf hlt
    cases x with
    | none => exact ih buf hlt
    | some r =>
      by_cases h : chunk ≤ (upsertRow buf (dKey r) r).length
      · have hlen : (upsertRow buf (dKey r) r).length = chunk := by
          have := upsertRow_length_le buf (dKey r) r
          omega
        have hloop : parseDailyLoop chunk buf (some r :: rest) =
            (upsertRow buf (dKey r) r).map Prod.snd :: parseDailyLoop chunk [] rest := by
          show (if chunk ≤ (upsertRow buf (dKey r) r).length then
              (upsertRow buf (dKey r) r).map Prod.snd :: parseDailyLoop chunk [] rest
            else parseDailyLoop chunk (upsertRow buf (dKey r) r) rest) = _
          rw [if_pos h]
        obtain ⟨ih1, ih2⟩ := ih [] (by simpa using hchunk)
        constructor
        · intro b hb
          rw [hloop] at hb
          rcases List.mem_cons.mp hb with rfl | hbm
          · rw [List.length_map, hlen]
            exact ⟨hchunk, le_refl chunk⟩
          · exact ih1 b hbm
        · intro b hb
          rw [hloop] at hb
          cases hl : parseDailyLoop chunk [] rest with
          | nil =>
            rw [hl] at hb
            simp at hb
          | cons c cs =>
            rw [hl] at hb
            rw [show ((upsertRow buf (dKey r) r).map Prod.snd :: c :: cs).dropLast =
              (upsertRow buf (dKey r) r).map Prod.snd :: (c :: cs).dropLast from rfl] at hb
            rcases List.mem_cons.mp hb with rfl | hbm
            · rw [List.length_map, hlen]
            · have := ih2 b
              rw [hl] at this
              exact this hbm
      · have hlt2 : (upsertRow buf (dKey r) r).length < chunk := not_le.mp h
        have hloop : parseDailyLoop chunk buf (some r :: rest) =
            parseDailyLoop chunk (upsertRow buf (dKey r) r) rest := by
          show (if chunk ≤ (upsertRow buf (dKey r) r).length then
              (upsertRow buf (dKey r) r).map Prod.snd :: parseDailyLoop chunk [] rest
            else parseDailyLoop chunk (upsertRow buf (dKey r) r) rest) = _
          rw [if_neg h]
        rw [hloop]
        exact ih _ hlt2

theorem parseDailyLoop_coverage {α : Type} (chunk : Nat) :
    ∀ (input : List (Option (DailyRecord α))) (buf),
      (∀ e ∈ buf, e.1 = dKey e.2) →
      (∀ e ∈ buf, e.1 ∈ ((parseDailyLoop chunk buf input).flatten.map dKey)) ∧
      (∀ r ∈ input.filterMap id, dKey r ∈ ((parseDailyLoop chunk buf input).flatten.map dKey)) := by
  intro input
  induction input with
  | nil =>
    intro buf hinv
    constructor
    · intro e he
      have hne : ¬ buf.isEmpty := by
        simp only [List.isEmpty_eq_true]
        intro hc
        rw [hc] at he
        simp at he
      unfold parseDailyLoop
      rw [if_neg hne]
      simp only [List.flatten_cons, List.flatten_nil, List.append_nil, List.map_map]
      refine List.mem_map.mpr ⟨e, he, ?_⟩
      simp only [Function.comp_apply]
      exact (hinv e he).symm
    · intro r hr
      simp at hr
  | cons x rest ih =>
    intro buf hinv
    cases x with
    | none => exact ih buf hinv
    | some r =>
      have hinv2 : ∀ e ∈ upsertRow buf (dKey r) r, e.1 = dKey e.2 := by
        intro e he
        rcases (mem_upsertRow _ _ _ _).mp he with rfl | ⟨hmem, _⟩
        · rfl
        · exact hinv e hmem
      have hself : (dKey r, r) ∈ upsertRow buf (dKey r) r := self_mem_upsertRow _ _ _
      by_cases h : chunk ≤ (upsertRow buf (dKey r) r).length
      · have hloop : parseDailyLoop chunk buf (some r :: rest) =
            (upsertRow buf (dKey r) r).map Prod.snd :: parseDailyLoop chunk [] rest := by
          show (if chunk ≤ (upsertRow buf (dKey r) r).length then
              (upsertRow buf (dKey r) r).map Prod.snd :: parseDailyLoop chunk [] rest
            else parseDailyLoop chunk (upsertRow buf (dKey r) r) rest) = _
          rw [if_pos h]
        obtain ⟨_, ihrest⟩ := ih [] (by simp)
        have hbatch : ∀ e ∈ upsertRow buf (dKey r) r,
            e.1 ∈ ((parseDailyLoop chunk buf (some r :: rest)).flatten.map dKey) := by
          intro e he
          rw [hloop]
          simp only [List.flatten_cons, List.map_append]
          refine List.mem_append.mpr (Or.inl ?_)
          rw [List.map_map]
          refine List.mem_map.mpr ⟨e, he, ?_⟩
          simp only [Function.comp_apply]
          exact (hinv2 e he).symm
        constructor
        · intro e he
          have hkey : e.1 ∈ (upsertRow buf (dKey r) r).map Prod.fst :=
            keys_mono_upsertRow buf (dKey r) r e.1 (List.mem_map.mpr ⟨e, he, rfl⟩)
          obtain ⟨e2, he2, heq⟩ := List.mem_map.mp hkey
          rw [← heq]
          exact hbatch e2 he2
        · intro r2 hr2
          rw [show (some r :: rest).filterMap id = r :: rest.filterMap id from rfl] at hr2
          rcases List.mem_cons.mp hr2 with rfl | hr2m
          · have := hbatch (dKey r2, r2) hself
            simpa using this
          · have := ihrest r2 hr2m
            rw [hloop]
            simp only [List.flatten_cons, List.map_append]
            exact List.mem_append.mpr (Or.inr this)
      · have hloop : parseDailyLoop chunk buf (some r :: rest) =
            parseDailyLoop chunk (upsertRow buf (dKey r) r) rest := by
          show (if chunk ≤ (upsertRow buf (dKey r) r).length then
              (upsertRow buf (dKey r) r).map Prod.snd :: parseDailyLoop chunk [] rest
            else parseDailyLoop chunk (upsertRow buf (dKey r) r) rest) = _
          rw [if_neg h]
        obtain ⟨ihbuf, ihrest⟩ := ih (upsertRow buf (dKey r) r) hinv2
        constructor
        · intro e he
          have hkey : e.1 ∈ (upsertRow buf (dKey r) r).map Prod.fst :=
            keys_mono_upsertRow buf (dKey r) r e.1 (List.mem_map.mpr ⟨e, he, rfl⟩)
          obtain ⟨e2, he2, heq⟩ := List.mem_map.mp hkey
          rw [hloop, ← heq]
          exact ihbuf e2 he2
        · intro r2 hr2
          rw [show (some r :: rest).filterMap id = r :: rest.filterMap id from rfl] at hr2
          rw [hloop]
          rcases List.mem_cons.mp hr2 with rfl | hr2m
          · have := ihbuf (dKey r2, r2) hself
            simpa using this
          · exact ihrest r2 hr2m

theorem foldInsert_length_mono {K V : Type} [DecidableEq K] (key : V → K) :
    ∀ (rs : List V) (buf : List (K × V)), buf.length ≤ (foldInsert key buf rs).length := by
  intro rs
  induction rs with
  | nil => intro buf; exact le_refl _
  | cons r rest ih =>
    intro buf
    have h1 : buf.length ≤ (upsertRow buf (key r) r).length := by
      rw [upsertRow_length]
      by_cases h : key r ∈ buf.map Prod.fst
      · rw [if_pos h]
      · rw [if_neg h]; omega
    exact le_trans h1 (ih (upsertRow buf (key r) r))

theorem parseDailyLoop_no_flush {α : Type} (chunk : Nat) :
    ∀ (rs : List (DailyRecord α)) (buf), buf.length + rs.length < chunk →
      parseDailyLoop chunk buf (rs.map some) =
        if (foldInsert dKey buf rs).isEmpty then []
        else [(foldInsert dKey buf rs).map Prod.snd] := by
  intro rs
  induction rs with
  | nil =>
    intro buf _
    rfl
  | cons r rest ih =>
    intro buf hlt
    have hlen : (upsertRow buf (dKey r) r).length < chunk := by
      have := upsertRow_length_le buf (dKey r) r
      simp only [List.length_cons] at hlt
      omega
    rw [show (r :: rest).map some = some r :: rest.map some from rfl]
    rw [show parseDailyLoop chunk buf (some r :: rest.map some) =
        (if chunk ≤ (upsertRow buf (dKey r) r).length then
          (upsertRow buf (dKey r) r).map Prod.snd :: parseDailyLoop chunk [] (rest.map some)
        else parseDailyLoop chunk (upsertRow buf (dKey r) r) (rest.map some)) from rfl]
    rw [if_neg (not_le.mpr hlen)]
    rw [ih (upsertRow buf (dKey r) r) (by
      have := upsertRow_length_le buf (dKey r) r
      simp only [List.length_cons] at hlt
      omega)]
    rfl

theorem parseDailyLoop_filterMap {α : Type} (chunk : Nat) :
    ∀ (input : List (Option (DailyRecord α))) (buf),
      parseDailyLoop chunk buf input =
        parseDailyLoop chunk buf ((input.filterMap id).map some) := by
  intro input
  induction input with
  | nil => intro buf; rfl
  | cons x rest ih =>
    intro buf
    cases x with
    | none => exact ih buf
    | some r =>
      rw [show (some r :: rest).filterMap id = r :: rest.filterMap id from rfl]
      rw [show (r :: rest.filterMap id).map some = some r :: (rest.filterMap id).map some
        from rfl]
      show (if chunk ≤ (upsertRow buf (dKey r) r).length then
          (upsertRow buf (dKey r) r).map Prod.snd :: parseDailyLoop chunk [] rest
        else parseDailyLoop chunk (upsertRow buf (dKey r) r) rest) =
        (if chunk ≤ (upsertRow buf (dKey r) r).length then
          (upsertRow buf (dKey r) r).map Prod.snd ::
            parseDailyLoop chunk [] ((rest.filterMap id).map some)
        else parseDailyLoop chunk (upsertRow buf (dKey r) r) ((rest.filterMap id).map some))
      by_cases h : chunk ≤ (upsertRow buf (dKey r) r).length
      · rw [if_pos h, if_pos h, ih []]
      · rw [if_neg h, if_neg h, ih _]

/-- C6: the daily record parser buffers records in a map keyed by
(station_id, date); every flushed batch is non-empty and never exceeds
CHUNK_SIZE, every batch except the final flush has exactly CHUNK_SIZE
records (the buffer is flushed exactly when it reaches the chunk size,
and at end of stream), no record key is lost across the flushed
batches, and within one buffered chunk the last record with a given
key wins: when the stream fits in a single buffer, the single flushed
batch holds one record per distinct key, in first-occurrence order,
each being the last occurrence of its key. -/
theorem parse_and_store_daily_batching {α : Type} :
    (∀ input : List (Option (DailyRecord α)),
      (∀ b ∈ parseAndStoreDailyBatches input, 1 ≤ b.length ∧ b.length ≤ CHUNK_SIZE) ∧
      (∀ b ∈ (parseAndStoreDailyBatches input).dropLast, b.length = CHUNK_SIZE)) ∧
    (∀ input : List (Option (DailyRecord α)), ∀ r ∈ input.filterMap id,
      dKey r ∈ ((parseAndStoreDailyBatches input).flatten.map dKey)) ∧
    (∀ input : List (Option (DailyRecord α)), input.filterMap id ≠ [] →
      (input.filterMap id).length < CHUNK_SIZE →
      ∃ b, parseAndStoreDailyBatches input = [b] ∧
        b.map dKey = firstDedup ((input.filterMap id).map dKey) ∧
        ∀ r' ∈ b,
          ((input.filterMap id).filter fun x => decide (dKey x = dKey r')).getLast? =
            some r') := by
  refine ⟨?_, ?_, ?_⟩
  · intro input
    exact parseDailyLoop_sizes CHUNK_SIZE (by norm_num [CHUNK_SIZE]) input [] (by
      simp [CHUNK_SIZE])
  · intro input
    exact (parseDailyLoop_coverage CHUNK_SIZE input [] (by simp)).2
  · intro input hne hlen
    refine ⟨(foldInsert dKey [] (input.filterMap id)).map Prod.snd, ?_, ?_, ?_⟩
    · unfold parseAndStoreDailyBatches
      rw [parseDailyLoop_filterMap CHUNK_SIZE input []]
      rw [parseDailyLoop_no_flush CHUNK_SIZE (input.filterMap id) [] (by simpa using hlen)]
      rw [if_neg ?_]
      simp only [List.isEmpty_eq_true]
      intro hc
      obtain ⟨r, rs, hrs⟩ : ∃ r rs, input.filterMap id = r :: rs := by
        cases hi : input.filterMap id with
        | nil => exact absurd hi hne
        | cons r rs => exact ⟨r, rs, rfl⟩
      have hmono := foldInsert_length_mono dKey rs (upsertRow [] (dKey r) r)
      rw [hrs] at hc
      rw [show foldInsert dKey [] (r :: rs) = foldInsert dKey (upsertRow [] (dKey r) r) rs
        from rfl] at hc
      rw [hc] at hmono
      simp [upsertRow] at hmono
    · rw [List.map_map]
      have hcong : (foldInsert dKey [] (input.filterMap id)).map (dKey ∘ Prod.snd) =
          (foldInsert dKey [] (input.filterMap id)).map Prod.fst := by
        apply List.map_congr_left
        intro e he
        simp only [Function.comp_apply]
        exact (foldInsert_mem_nil dKey (input.filterMap id) e he).1.symm
      rw [hcong, foldInsert_keys_nil]
    · intro r' hr'
      obtain ⟨e, he, heq⟩ := List.mem_map.mp hr'
      obtain ⟨hkey, hlast⟩ := foldInsert_mem_nil dKey (input.filterMap id) e he
      rw [← heq]
      have : e.1 = dKey e.2 := hkey
      rw [← this]
      exact hlast

/-- Witness for the C6 theorem: three records, the first two sharing a
key; the single flushed batch keeps one record per key, the duplicate
resolved to the later record, and the batch equality is checked
concretely. -/
theorem parse_and_store_daily_batching_witness :
    (([some ⟨1, some "2022-07-15", 10⟩, some ⟨1, some "2022-07-15", 20⟩,
        some ⟨2, some "2022-07-15", 30⟩] : List (Option (DailyRecord Nat))).filterMap id
      ≠ []) ∧
    (([some ⟨1, some "2022-07-15", 10⟩, some ⟨1, some "2022-07-15", 20⟩,
        some ⟨2, some "2022-07-15", 30⟩] : List (Option (DailyRecord Nat))).filterMap
        id).length < CHUNK_SIZE ∧
    (∃ b, parseAndStoreDailyBatches
        ([some ⟨1, some "2022-07-15", 10⟩, some ⟨1, some "2022-07-15", 20⟩,
          some ⟨2, some "2022-07-15", 30⟩] : List (Option (DailyRecord Nat))) = [b] ∧
      b.map dKey = firstDedup
        ((([some ⟨1, some "2022-07-15", 10⟩, some ⟨1, some "2022-07-15", 20⟩,
          some ⟨2, some "2022-07-15", 30⟩] : List (Option (DailyRecord Nat))).filterMap
            id).map dKey) ∧
      ∀ r' ∈ b,
        ((([some ⟨1, some "2022-07-15", 10⟩, some ⟨1, some "2022-07-15", 20⟩,
          some ⟨2, some "2022-07-15", 30⟩] : List (Option (DailyRecord Nat))).filterMap
            id).filter fun x => decide (dKey x = dKey r')).getLast? = some r') :=
  ⟨by decide, by decide,
    (parse_and_store_daily_batching (α := Nat)).2.2
      [some ⟨1, some "2022-07-15", 10⟩, some ⟨1, some "2022-07-15", 20⟩,
        some ⟨2, some "2022-07-15", 30⟩] (by decide) (by decide)⟩

/-- C7: a record whose station identifier is non-numeric (such as abc
or -5) or normalizes to a non-positive integer is normalized to no
value (with a logged warning in the source, never an exception), the
whole record is dropped, and dropping it leaves the processing of
every other record in the stream unchanged, so all other well-formed
records in the same batch are still normalized and persisted. -/
theorem normalize_station_id_drops_bad_records {α : Type} :
    (normalizeStationId (some "abc") = none ∧ normalizeStationId (some "-5") = none ∧
      normalizeStationId (some "0") = none) ∧
    (∀ p : RawDailyRow α, normalizeStationId p.stations_id = none →
      normalizeDailyRecord p = none) ∧
    (∀ xs ys : List (Option (DailyRecord α)),
      parseAndStoreDailyBatches (xs ++ none :: ys) = parseAndStoreDailyBatches (xs ++ ys)) := by
  refine ⟨⟨by decide, by decide, by decide⟩, ?_, ?_⟩
  · intro p h
    unfold normalizeDailyRecord
    rw [h]
  · intro xs ys
    exact parseDailyLoop_skip_none CHUNK_SIZE xs [] ys

/-- Witness for the C7 theorem: the record with station id abc is
dropped by normalization. -/
theorem normalize_station_id_drops_bad_records_witness :
    normalizeStationId (some "abc") = none ∧
      normalizeDailyRecord (⟨some "abc", some "20220715", 0⟩ : RawDailyRow Nat) = none :=
  ⟨(normalize_station_id_drops_bad_records (α := Nat)).1.1,
    (normalize_station_id_drops_bad_records (α := Nat)).2.1
      ⟨some "abc", some "20220715", 0⟩
      (normalize_station_id_drops_bad_records (α := Nat)).1.1⟩


/-- Strict code-point lexicographic comparison of character lists: the
order Python uses for comparing strings, and the order of SQLite text
MIN and MAX over the ASCII date strings of the store. -/
def charListLt : List Char → List Char → Bool
  | [], [] => false
  | [], _ :: _ => true
  | _ :: _, [] => false
  | a :: as, b :: bs => if a < b then true else if b < a then false else charListLt as bs

/-- Python string less-than on the underlying characters. -/
def strLt (a b : String) : Bool := charListLt a.data b.data

/-- SELECT MIN(date) over the stored date strings. -/
def minimumString (l : List String) : Option String :=
  l.foldl (fun acc s =>
    match acc with
    | none => some s
    | some m => if charListLt s.data m.data then some s else some m) none

/-- SELECT MAX(date) over the stored date strings. -/
def maximumString (l : List String) : Option String :=
  l.foldl (fun acc s =>
    match acc with
    | none => some s
    | some m => if charListLt m.data s.data then some s else some m) none

/-- Shallow embedding of get_coverage (src/src/reports/coverage.py):
the minimum and maximum stored dates, or no value when the table is
empty or either aggregate is null or falsy (the empty string). -/
def getCoverage (dates : List String) : Option (String × String) :=
  match minimumString dates, maximumString dates with
  | some mn, some mx =>
    if mn.data.isEmpty || mx.data.isEmpty then none else some (mn, mx)
  | _, _ => none

/-- A Python datetime.date: year, month, day within the validated
ranges enforced by the date constructor. -/
structure PyDate where
  year : Int
  month : Int
  day : Int
deriving DecidableEq

/-- Leap-year rule of the proleptic Gregorian calendar used by
datetime.date. -/
def isLeapYear (y : Int) : Bool := (y % 4 == 0 && y % 100 != 0) || (y % 400 == 0)

/-- Days in a month per datetime.date validation. -/
def daysInMonth (y m : Int) : Int :=
  if m = 2 then (if isLeapYear y then 29 else 28)
  else if m = 4 ∨ m = 6 ∨ m = 9 ∨ m = 11 then 30
  else 31

/-- The datetime.date constructor: validates year, month and day and
raises otherwise. -/
def mkPyDate (y m d : Int) : Option PyDate :=
  if 1 ≤ y ∧ y ≤ 9999 ∧ 1 ≤ m ∧ m ≤ 12 ∧ 1 ≤ d ∧ d ≤ daysInMonth y m then
    some ⟨y, m, d⟩
  else none

/-- Python date comparison: lexicographic on (year, month, day). -/
def pyDateLtB (a b : PyDate) : Bool :=
  if a.year < b.year then true
  else if b.year < a.year then false
  else if a.month < b.month then true
  else if b.month < a.month then false
  else decide (a.day < b.day)

/-- An all-digit character run parsed as a natural number, no value
otherwise. -/
def parseNatChars (cs : List Char) : Option Nat :=
  if cs.isEmpty then none
  else if cs.all Char.isDigit then some (digitsToNat cs) else none

/-- The int() builtin on the date components: optional sign followed by
digits (whitespace and underscore liberality of int() does not occur
in date strings and is not modelled). -/
def parseIntStr (s : String) : Option Int :=
  match s.data with
  | [] => none
  | c :: cs =>
    if c = '-' then (parseNatChars cs).map fun n => -(n : Int)
    else if c = '+' then (parseNatChars cs).map fun n => (n : Int)
    else (parseNatChars (c :: cs)).map fun n => (n : Int)

/-- value.split on the dash character. -/
def splitOnDash : List Char → List Char → List (List Char)
  | acc, [] => [acc.reverse]
  | acc, c :: cs => if c = '-' then acc.reverse :: splitOnDash [] cs else splitOnDash (c :: acc) cs

/-- Shallow embedding of _parse_date (src/src/reports/generate.py
lines 14-19): split on dashes, convert every part with int(), build
date(parts[0], parts[1], parts[2]); any conversion failure, missing
part or invalid calendar date raises ReportError invalid_dates. -/
def parseDate (value : String) : Except ReportErrorCode PyDate :=
  let parts := (splitOnDash [] value.data).map fun cs => parseIntStr ⟨cs⟩
  if parts.all Option.isSome then
    match parts with
    | some y :: some m :: some d :: _ =>
      match mkPyDate y m d with
      | some dt => Except.ok dt
      | none => Except.error ReportErrorCode.invalid_dates
    | _ => Except.error ReportErrorCode.invalid_dates
  else Except.error ReportErrorCode.invalid_dates

/-- Row of the period aggregation query (aggregations.py lines 24-40);
the aggregates come from the storage engine, whose floating-point
arithmetic the model treats as given values. -/
structure AggRow where
  period : String
  temp_avg : Option ℚ
  temp_max : Option ℚ
  temp_min : Option ℚ
  precipitation : Option ℚ
  sunshine : Option ℚ
  sample_count : Nat
  distinct_days : Nat
deriving DecidableEq

/-- Row of the per-station breakdown query (aggregations.py
lines 62-82). -/
structure BreakdownRow where
  period : String
  station_id : Nat
  temp_avg : Option ℚ
  temp_max : Option ℚ
  temp_min : Option ℚ
  precipitation : Option ℚ
  sunshine : Option ℚ
  sample_count : Nat
  distinct_days : Nat
deriving DecidableEq

/-- The storage contents a report reads: the stored date strings (for
coverage), the stations table, and the result rows of the two
aggregation queries for the validated parameters. -/
structure ReportDb where
  daily_dates : List String
  stations : List StationRow
  aggRows : List AggRow
  breakdownRows : List BreakdownRow

/-- _build_aggregate_query (aggregations.py lines 10-40): validates the
granularity, raising invalid_granularity before any query executes, and
returns the period grouping expression. -/
def buildAggregateQuery (granularity : String) : Except ReportErrorCode String :=
  if granularity = "day" then Except.ok "date"
  else if granularity = "month" then Except.ok "substr(date, 1, 7)"
  else if granularity = "year" then Except.ok "substr(date, 1, 4)"
  else Except.error ReportErrorCode.invalid_granularity

/-- _round_or_none (aggregations.py lines 113-116). -/
def roundOpt (v : Option ℚ) : Option ℚ := v.map round2

/-- Per-station detail entry of a period (aggregations.py
lines 89-101). -/
structure StationDetail where
  station_id : Nat
  station_name : String
  state : String
  distance_km : Option ℚ
  temp_avg : Option ℚ
  temp_min : Option ℚ
  temp_max : Option ℚ
  precipitation : Option ℚ
  sunshine : Option ℚ
  sample_count : Nat
  distinct_days : Nat
deriving DecidableEq

/-- Tail of the detail sort key: station name, then station id
(aggregations.py lines 103-109). -/
def nameIdLe (a b : StationDetail) : Bool :=
  if charListLt a.station_name.data b.station_name.data then true
  else if charListLt b.station_name.data a.station_name.data then false
  else decide (a.station_id ≤ b.station_id)

/-- Comparator for the per-period detail sort: distance-is-null first
key, distance second (null ordered last via the infinity stand-in),
then name and id. -/
def detailLe (a b : StationDetail) : Bool :=
  if a.distance_km.isNone = b.distance_km.isNone then
    match a.distance_km, b.distance_km with
    | some av, some bv =>
      if av < bv then true else if bv < av then false else nameIdLe a b
    | _, _ => nameIdLe a b
  else b.distance_km.isNone

/-- Stable insertion used for sorting the details of one period. -/
def orderedInsertDetail (x : StationDetail) : List StationDetail → List StationDetail
  | [] => [x]
  | y :: ys => if detailLe x y then x :: y :: ys else y :: orderedInsertDetail x ys

/-- Stable sort of a period's details by (distance null, distance,
name, id). -/
def sortDetails : List StationDetail → List StationDetail
  | [] => []
  | x :: xs => orderedInsertDetail x (sortDetails xs)

/-- The station_lookup dict built from the selected stations: later
entries with the same id overwrite earlier ones. -/
def stationLookup (stations : List StationPayloadRow) (sid : Nat) :
    Option StationPayloadRow :=
  (stations.filter fun s => decide (s.station_id = sid)).getLast?

/-- Detail entry built from a breakdown row and the station metadata
(aggregations.py lines 89-101). -/
def mkDetail (meta : StationPayloadRow) (row : BreakdownRow) : StationDetail :=
  ⟨row.station_id, meta.name, meta.state, some meta.distance_km,
    roundOpt row.temp_avg, roundOpt row.temp_min, roundOpt row.temp_max,
    roundOpt row.precipitation, roundOpt row.sunshine,
    row.sample_count, row.distinct_days⟩

/-- breakdown.setdefault(period, []).append(detail): append to the
period's list, keeping the first-occurrence order of periods. -/
def breakdownInsert (acc : List (String × List StationDetail)) (period : String)
    (det : StationDetail) : List (String × List StationDetail) :=
  if period ∈ acc.map Prod.fst then
    acc.map fun pv => if pv.1 = period then (pv.1, pv.2 ++ [det]) else pv
  else acc ++ [(period, [det])]

/-- Shallow embedding of _station_period_breakdown (aggregations.py
lines 53-110): group the breakdown rows by period, skipping rows whose
station is not among the selected ones, then sort each period's
details. -/
def stationPeriodBreakdown (stations : List StationPayloadRow)
    (rows : List BreakdownRow) : List (String × List StationDetail) :=
  (rows.foldl (fun acc row =>
    match stationLookup stations row.station_id with
    | none => acc
    | some meta => breakdownInsert acc row.period (mkDetail meta row)) []).map
    fun pv => (pv.1, sortDetails pv.2)

/-- breakdown.get(period, []). -/
def breakdownLookup (grouped : List (String × List StationDetail)) (period : String) :
    List StationDetail :=
  match grouped.find? fun pv => decide (pv.1 = period) with
  | some pv => pv.2
  | none => []

/-- One entry of the periods list of the response payload
(generate.py lines 46-59, station details filled in lines 61-67). -/
structure PeriodOut where
  period : String
  temp_avg : Option ℚ
  temp_max : Option ℚ
  temp_min : Option ℚ
  precipitation : Option ℚ
  sunshine : Option ℚ
  sample_count : Nat
  distinct_days : Nat
  stations : List StationDetail
deriving DecidableEq

/-- The response payload of generate_report (generate.py lines 72-87):
query parameters, coverage, candidate stations each with its has_data
flag, the period list, and the used-station summary. -/
structure ReportPayload where
  lat : ℚ
  lon : ℚ
  radius : ℚ
  start_date : String
  end_date : String
  granularity : String
  coverage : String × String
  stations : List (StationPayloadRow × Bool)
  periods : List PeriodOut
  used_station_ids : List Nat
  used_station_count : Nat
deriving DecidableEq

/-- Period entry built from an aggregate row with its station details
attached. -/
def mkPeriodOut (grouped : List (String × List StationDetail)) (row : AggRow) : PeriodOut :=
  ⟨row.period, roundOpt row.temp_avg, roundOpt row.temp_max, roundOpt row.temp_min,
    roundOpt row.precipitation, roundOpt row.sunshine, row.sample_count,
    row.distinct_days, breakdownLookup grouped row.period⟩

/-- The sorted set of station ids contributing to any period
(generate.py lines 62-67 and 85). -/
def usedStationIds (periods : List PeriodOut) : List Nat :=
  ((periods.foldl (fun acc p => acc ++ p.stations.map StationDetail.station_id) []).dedup
    ).insertionSort (· ≤ ·)

/-- Shallow embedding of generate_report (generate.py lines 22-87),
paired with the trace of queries executed, in order. The haversine and
cosine parameters d and cosAbsLat serve the station selection exactly
as in the geo model. -/
def generateReport (db : ReportDb) (d : ℚ → ℚ → ℚ) (cosAbsLat : ℚ)
    (lat lon radius : ℚ) (start_date end_date granularity : String) :
    Except ReportErrorCode ReportPayload × List QueryEvent :=
  match getCoverage db.daily_dates with
  | none => (Except.error ReportErrorCode.no_data, [QueryEvent.coverageQuery])
  | some coverage =>
    match parseDate start_date with
    | Except.error e => (Except.error e, [QueryEvent.coverageQuery])
    | Except.ok start_obj =>
      match parseDate end_date with
      | Except.error e => (Except.error e, [QueryEvent.coverageQuery])
      | Except.ok end_obj =>
        if pyDateLtB end_obj start_obj then
          (Except.error ReportErrorCode.invalid_range, [QueryEvent.coverageQuery])
        else if strLt start_date coverage.1 || strLt coverage.2 end_date then
          (Except.error ReportErrorCode.out_of_bounds, [QueryEvent.coverageQuery])
        else
          match stationsWithinRadiusRun d cosAbsLat db.stations lat lon radius 12 with
          | (Except.error e, evg) => (Except.error e, QueryEvent.coverageQuery :: evg)
          | (Except.ok stations, evg) =>
            if stations.isEmpty then
              (Except.error ReportErrorCode.no_stations, QueryEvent.coverageQuery :: evg)
            else
              match buildAggregateQuery granularity with
              | Except.error e => (Except.error e, QueryEvent.coverageQuery :: evg)
              | Except.ok _ =>
                if db.aggRows.isEmpty then
                  (Except.error ReportErrorCode.no_data,
                    QueryEvent.coverageQuery :: evg ++ [QueryEvent.periodAggregateQuery])
                else
                  (Except.ok
                    (let grouped := stationPeriodBreakdown stations db.breakdownRows
                     let periods := db.aggRows.map (mkPeriodOut grouped)
                     let used := usedStationIds periods
                     ⟨lat, lon, radius, start_date, end_date, granularity, coverage,
                       stations.map fun s => (s, decide (s.station_id ∈ used)),
                       periods, used, used.length⟩),
                    QueryEvent.coverageQuery :: evg ++
                      [QueryEvent.periodAggregateQuery, QueryEvent.breakdownQuery])


theorem stationsWithinRadiusRun_ok_not_empty (d : ℚ → ℚ → ℚ) (cosAbsLat : ℚ)
    (stations : List StationRow) (lat lon radius : ℚ) (limit : Nat)
    (st : List StationPayloadRow)
    (hok : (stationsWithinRadiusRun d cosAbsLat stations lat lon radius limit).1 =
      Except.ok st) :
    st.isEmpty = false := by
  unfold stationsWithinRadiusRun at hok
  by_cases h : (payloadWithR d cosAbsLat stations lat lon (effectiveRadius radius)
      limit).isEmpty
  · rw [show ((if (payloadWithR d cosAbsLat stations lat lon (effectiveRadius radius)
        limit).isEmpty then (Except.error ReportErrorCode.no_stations :
          Except ReportErrorCode (List StationPayloadRow))
      else Except.ok (payloadWithR d cosAbsLat stations lat lon (effectiveRadius radius)
        limit), geoEvents d cosAbsLat stations lat lon (effectiveRadius radius))).1 =
      (if (payloadWithR d cosAbsLat stations lat lon (effectiveRadius radius)
        limit).isEmpty then (Except.error ReportErrorCode.no_stations :
          Except ReportErrorCode (List StationPayloadRow))
      else Except.ok (payloadWithR d cosAbsLat stations lat lon (effectiveRadius radius)
        limit)) from rfl, if_pos h] at hok
    exact Except.noConfusion hok
  · rw [show ((if (payloadWithR d cosAbsLat stations lat lon (effectiveRadius radius)
        limit).isEmpty then (Except.error ReportErrorCode.no_stations :
          Except ReportErrorCode (List StationPayloadRow))
      else Except.ok (payloadWithR d cosAbsLat stations lat lon (effectiveRadius radius)
        limit), geoEvents d cosAbsLat stations lat lon (effectiveRadius radius))).1 =
      (if (payloadWithR d cosAbsLat stations lat lon (effectiveRadius radius)
        limit).isEmpty then (Except.error ReportErrorCode.no_stations :
          Except ReportErrorCode (List StationPayloadRow))
      else Except.ok (payloadWithR d cosAbsLat stations lat lon (effectiveRadius radius)
        limit)) from rfl, if_neg h] at hok
    rw [← Except.ok.inj hok]
    simpa using h

/-- C3: for every report query with parseable start and end dates where
the start date is later than the end date, and with data coverage
present, generate_report fails with invalid_range, and the trace of
executed queries contains no period aggregation query: only the
coverage query ran before the failure. -/
theorem generate_report_invalid_range_short_circuits (db : ReportDb) (d : ℚ → ℚ → ℚ)
    (cosAbsLat lat lon radius : ℚ) (sd ed g : String) (c : String × String)
    (ds de : PyDate)
    (hcov : getCoverage db.daily_dates = some c)
    (hps : parseDate sd = Except.ok ds)
    (hpe : parseDate ed = Except.ok de)
    (hgt : pyDateLtB de ds = true) :
    (generateReport db d cosAbsLat lat lon radius sd ed g).1 =
        Except.error ReportErrorCode.invalid_range ∧
      QueryEvent.periodAggregateQuery ∉
        (generateReport db d cosAbsLat lat lon radius sd ed g).2 := by
  unfold generateReport
  rw [hcov, hps, hpe]
  simp [hgt]

/-- Storage contents for the C3 witness: coverage exists, one station. -/
def reportDbWitness : ReportDb :=
  ⟨["2022-01-01", "2022-12-31"], [⟨1, "A", "Berlin", some 0, some 0⟩], [], []⟩

/-- Witness for the C3 theorem: startDate 2022-07-15 after endDate
2022-07-10 yields invalid_range with no aggregation query executed. -/
theorem generate_report_invalid_range_short_circuits_witness :
    pyDateLtB ⟨2022, 7, 10⟩ ⟨2022, 7, 15⟩ = true ∧
      ((generateReport reportDbWitness (fun _ _ => 1) 1 0 0 50 "2022-07-15" "2022-07-10"
          "day").1 = Except.error ReportErrorCode.invalid_range ∧
        QueryEvent.periodAggregateQuery ∉
          (generateReport reportDbWitness (fun _ _ => 1) 1 0 0 50 "2022-07-15" "2022-07-10"
            "day").2) :=
  ⟨by decide,
    generate_report_invalid_range_short_circuits reportDbWitness (fun _ _ => 1) 1 0 0 50
      "2022-07-15" "2022-07-10" "day" ("2022-01-01", "2022-12-31")
      ⟨2022, 7, 15⟩ ⟨2022, 7, 10⟩ (by decide) (by decide) (by decide) (by decide)⟩

/-- C10: generate_report raises no_data not only when the store has no
coverage, but also whenever the period aggregation query returns zero
rows after all validations and the station selection succeeded; and it
never returns a success payload whose period list is empty. -/
theorem generate_report_no_data_on_empty_aggregation (db : ReportDb) (d : ℚ → ℚ → ℚ)
    (cosAbsLat lat lon radius : ℚ) (sd ed g : String) :
    (∀ p : ReportPayload,
      (generateReport db d cosAbsLat lat lon radius sd ed g).1 = Except.ok p →
      p.periods ≠ []) ∧
    (∀ (c : String × String) (ds de : PyDate) (stations : List StationPayloadRow)
        (q : String),
      getCoverage db.daily_dates = some c →
      parseDate sd = Except.ok ds →
      parseDate ed = Except.ok de →
      pyDateLtB de ds = false →
      (strLt sd c.1 || strLt c.2 ed) = false →
      (stationsWithinRadiusRun d cosAbsLat db.stations lat lon radius 12).1 =
        Except.ok stations →
      buildAggregateQuery g = Except.ok q →
      db.aggRows = [] →
      (generateReport db d cosAbsLat lat lon radius sd ed g).1 =
        Except.error ReportErrorCode.no_data) := by
  constructor
  · intro p h
    unfold generateReport at h
    split at h
    · simp at h
    · split at h
      · simp at h
      · split at h
        · simp at h
        · split at h
          · simp at h
          · split at h
            · simp at h
            · split at h
              · simp at h
              · split at h
                · simp at h
                · split at h
                  · simp at h
                  · split at h
                    · simp at h
                    · rename_i hne
                      simp only [] at h
                      have hp := Except.ok.inj h
                      rw [← hp]
                      simp only []
                      intro hc
                      rw [List.map_eq_nil_iff] at hc
                      rw [hc] at hne
                      simp at hne
  · intro c ds de stations q hcov hps hpe hlt hbounds hgeo hbuild haggs
    have hpair : stationsWithinRadiusRun d cosAbsLat db.stations lat lon radius 12 =
        (Except.ok stations,
          (stationsWithinRadiusRun d cosAbsLat db.stations lat lon radius 12).2) := by
      rw [← hgeo]
    have hstne := stationsWithinRadiusRun_ok_not_empty d cosAbsLat db.stations lat lon
      radius 12 stations hgeo
    unfold generateReport
    rw [hcov, hps, hpe, hpair, hbuild]
    simp [hlt, hbounds, hstne, haggs]

/-- Storage contents for the C10 witness: coverage exists, one geocoded
station near the query point, an empty aggregation result. -/
def reportDbEmptyAgg : ReportDb :=
  ⟨["2022-01-01", "2022-12-31"], [⟨1, "A", "Berlin", some 0, some 0⟩], [], []⟩

/-- Witness for the C10 theorem: all validations pass, the station
selection returns one station, the aggregation returns zero rows, and
the generator raises no_data. -/
theorem generate_report_no_data_on_empty_aggregation_witness :
    reportDbEmptyAgg.aggRows = [] ∧
      (generateReport reportDbEmptyAgg (fun _ _ => 1/4) 1 0 0 50 "2022-06-01" "2022-06-30"
          "day").1 = Except.error ReportErrorCode.no_data :=
  ⟨rfl,
    (generate_report_no_data_on_empty_aggregation reportDbEmptyAgg (fun _ _ => 1/4) 1 0 0 50
        "2022-06-01" "2022-06-30" "day").2
      ("2022-01-01", "2022-12-31") ⟨2022, 6, 1⟩ ⟨2022, 6, 30⟩
      [⟨1, "A", "Berlin", 0, 0, round2 (1/4)⟩] "date"
      (by decide) (by decide) (by decide) (by decide) (by decide) (by decide)
      (by decide) rfl⟩

end WeatherAnalytics
